import Mathlib

/-!
Verification of the AppleScript bridge core of mcp-apple-notes.

Python strings are embedded as `List Char` (a Python `str` is a sequence of
code points).  Each Python helper (`str.strip`, `str.split` with and without
`maxsplit`, `str.replace`, `str.lower`, `str.startswith`) is given a faithful
executable counterpart below, and each operation of the repository
(`find_notes_by_date`, `find_notes_by_title`, `search_notes`,
`get_most_recent_note`, `list_all_notes`, `execute_applescript`) is embedded
as the pure part of its control flow: validation, script assembly, outcome
classification and result decoding.  Subprocess launching itself is I/O and is
represented by classifying its observable inputs (return code, captured
streams).
-/

set_option maxRecDepth 2000

/-- View a Lean string literal as the list of its characters. -/
def chars (s : String) : List Char := s.data

/-- The whitespace test used by Python's `str.strip` / `str.isspace`,
restricted to the ASCII whitespace characters that can occur in this
program's data. -/
def isWS (c : Char) : Bool :=
  c = ' ' || c = '\t' || c = '\n' || c = '\r' || c = '\x0b' || c = '\x0c'

/-- Python `str.lower`, for the ASCII inputs used here. -/
def pyLower (s : List Char) : List Char := s.map Char.toLower

/-- Remove leading whitespace (left half of Python `str.strip`). -/
def stripLeft (s : List Char) : List Char := s.dropWhile isWS

/-- Python `str.strip()`: remove leading and trailing whitespace. -/
def pyStrip (s : List Char) : List Char :=
  ((s.dropWhile isWS).reverse.dropWhile isWS).reverse

/-- Index of the leftmost occurrence of `sep` in `s`, if any. -/
def findSub (sep : List Char) : List Char → Option Nat
  | [] => if sep.isEmpty then some 0 else none
  | c :: cs =>
    if sep.isPrefixOf (c :: cs) then some 0
    else (findSub sep cs).map (· + 1)

/-- Fuel-bounded splitting on a separator: performs at most `fuel` splits,
leaving the remainder whole once fuel runs out.  With `fuel = maxsplit`
this is Python's `s.split(sep, maxsplit)`; with enough fuel it is
`s.split(sep)`. -/
def pySplitFuel (sep : List Char) : Nat → List Char → List (List Char)
  | 0, s => [s]
  | fuel + 1, s =>
    match findSub sep s with
    | none => [s]
    | some i => s.take i :: pySplitFuel sep fuel (s.drop (i + sep.length))

/-- Python `s.split(sep, maxsplit)` for a non-empty separator. -/
def pySplitML (sep : List Char) (maxsplit : Nat) (s : List Char) :
    List (List Char) :=
  pySplitFuel sep maxsplit s

/-- Python `s.split(sep)` for a non-empty separator: `s.length + 1` fuel is
always enough because each split consumes at least one character. -/
def pySplit (sep : List Char) (s : List Char) : List (List Char) :=
  pySplitFuel sep (s.length + 1) s

/-- Python `s.replace(old, new)` for a non-empty `old` (the only patterns the
program replaces are `"\\"`, `"\""`, `"\r\n"` and `"\r"`): leftmost,
non-overlapping, the replacement text is not rescanned — equivalently,
split on `old` and rejoin with `new`. -/
def replaceL (old new : List Char) (s : List Char) : List Char :=
  if old.isEmpty then s else List.intercalate new (pySplit old s)

/-- Whether `needle` occurs anywhere in `s`. -/
def containsSub (needle s : List Char) : Bool := (findSub needle s).isSome

/-- Python `str(int)`: decimal rendering of an integer. -/
def intStr (i : Int) : List Char := (toString i).data

/-- Python string `<=`: lexicographic comparison by code point. -/
def strLe : List Char → List Char → Bool
  | [], _ => true
  | _ :: _, [] => false
  | a :: as_, b :: bs =>
    if a.toNat < b.toNat then true
    else if b.toNat < a.toNat then false
    else strLe as_ bs

/-- Insert into a descending-by-key list, before the first element whose key
is not greater — the placement Python's stable `sort(reverse=True)` gives a
leftmost element. -/
def insertDesc {α : Type} (key : α → List Char) (x : α) : List α → List α
  | [] => [x]
  | y :: ys =>
    if strLe (key y) (key x) then x :: y :: ys
    else y :: insertDesc key x ys

/-- Python `list.sort(key=…, reverse=True)`: stable descending sort. -/
def sortDesc {α : Type} (key : α → List Char) : List α → List α
  | [] => []
  | x :: xs => insertDesc key x (sortDesc key xs)

/-! ## Calendar arithmetic (the `datetime` operations used by
`find_notes_by_date.py`) -/

/-- Gregorian leap-year rule, as `calendar.isleap` / `datetime` use it. -/
def isLeap (y : Nat) : Bool := y % 4 = 0 && (y % 100 ≠ 0 || y % 400 = 0)

/-- Days in month `m` of year `y` (months `1`–`12`). -/
def daysInMonth (y m : Nat) : Nat :=
  if m = 2 then (if isLeap y then 29 else 28)
  else if m = 4 ∨ m = 6 ∨ m = 9 ∨ m = 11 then 30
  else 31

/-- Days in year `y` before month `m`. -/
def daysBeforeMonth (y m : Nat) : Nat :=
  [0, 31, 59, 90, 120, 151, 181, 212, 243, 273, 304, 334].getD (m - 1) 0
    + (if 2 < m ∧ isLeap y then 1 else 0)

/-- Days before January 1 of year `y` in the proleptic Gregorian calendar
(`datetime.toordinal`'s year part). -/
def daysBeforeYear (y : Nat) : Nat :=
  365 * (y - 1) + (y - 1) / 4 + (y - 1) / 400 - (y - 1) / 100

/-- `datetime.date(y, m, d).toordinal()`: day number with 0001-01-01 = 1.
Subtracting two ordinals gives the day count of the `timedelta` between the
two dates, which is how `datetime` subtraction behaves. -/
def toOrdinal (y m d : Nat) : Nat := daysBeforeYear y + daysBeforeMonth y m + d

/-- Decimal value of an ASCII digit. -/
def digitVal (c : Char) : Option Nat :=
  if '0' ≤ c ∧ c ≤ '9' then some (c.toNat - 48) else none

/-- `datetime.fromisoformat`, modelled on its ISO calendar-date domain
(`YYYY-MM-DD`): four year digits, zero-padded month and day, month
`1`–`12`, day valid for the month, year at least `datetime.MINYEAR = 1`.
On this domain the model agrees with `fromisoformat`.  The host function's
full acceptance domain is strictly larger and Python-version-dependent
(time-bearing ISO strings such as `2024-01-15T10:30` also parse, their
time-of-day then being discarded by `find_notes_by_date`'s
`replace(hour=…)` normalization), so this concrete model is only relied on
where it returns `some` — where it and `fromisoformat` agree — and the
compiler's date-error path is stated over an abstract parser
(`findNotesByDateCompileWith`) that stands for whatever the host's
`fromisoformat` accepts. -/
def parseIsoDate (s : List Char) : Option (Nat × Nat × Nat) :=
  match s with
  | [y1, y2, y3, y4, '-', m1, m2, '-', d1, d2] => do
    let a ← digitVal y1
    let b ← digitVal y2
    let c ← digitVal y3
    let d ← digitVal y4
    let e ← digitVal m1
    let f ← digitVal m2
    let g ← digitVal d1
    let h ← digitVal d2
    let y := 1000 * a + 100 * b + 10 * c + d
    let m := 10 * e + f
    let dd := 10 * g + h
    if 1 ≤ y ∧ 1 ≤ m ∧ m ≤ 12 ∧ 1 ≤ dd ∧ dd ≤ daysInMonth y m then
      some (y, m, dd)
    else none
  | _ => none

/-- `_to_as_seconds` of `find_notes_by_date.py`, applied to the
datetime `(y, m, d, hh, mi, ss)`: whole seconds from AppleScript's epoch
anchor `datetime(2001, 1, 1)`, i.e.
`int((dt - _AS_EPOCH_LOCAL).total_seconds())`, which for whole-second
datetimes is exactly `86400 * Δdays + 3600 * hh + 60 * mi + ss`. -/
def to_as_seconds (y m d hh mi ss : Nat) : Int :=
  86400 * ((toOrdinal y m d : Int) - (toOrdinal 2001 1 1 : Int))
    + 3600 * (hh : Int) + 60 * (mi : Int) + (ss : Int)

/-! ## Identifier codec -/

/-- Modelled from the spec: `note_id_utils.py` is imported by every decoder
but is not among the provided sources.  §4.4: the codec derives a short,
stable key from a well-known trailing segment of the URI-like host
identifier (`x-coredata://…/ICNote/p123`), is pure and total, and yields the
empty string on malformed input.  We take the segment after the last `/`,
and the empty string when the input has no `/` at all. -/
def extract_primary_key (s : List Char) : List Char :=
  let parts := pySplit (chars "/") s
  if parts.length ≤ 1 then [] else parts.getLastD []

/-! ## Record shapes produced by the result decoders -/

/-- One decoded note entry (`list_all_notes`, `find_notes_by_title`,
`find_notes_by_date` dictionaries). -/
structure NoteRecord where
  note_id : List Char
  name : List Char
  folder : List Char
  creation_date : List Char
  modification_date : List Char
deriving DecidableEq, Repr

/-- One decoded keyword-search entry (`search_notes` dictionaries). -/
structure SearchRecord where
  note_id : List Char
  name : List Char
  folder : List Char
  matched_keyword : List Char
deriving DecidableEq, Repr

/-- The decoded most-recent-note entry (`get_most_recent_note` dictionary). -/
structure RecentRecord where
  note_id : List Char
  name : List Char
  folder : List Char
  creation_date : List Char
  modification_date : List Char
  body : List Char
deriving DecidableEq, Repr

/-! ## Escaping of caller-supplied text
(`title.replace("\\", "\\\\").replace('"', '\\"')` in `find_notes_by_title.py`
and the identical per-keyword expression in `search_notes.py`). -/

/-- Escape text for interpolation into an AppleScript string literal: first
double every backslash, then prefix every double-quote with a backslash. -/
def escapeAS (s : List Char) : List Char :=
  replaceL (chars "\"") (chars "\\\"") (replaceL (chars "\\") (chars "\\\\") s)

/-- Character-wise view of `escapeAS` (proved equal to it below). -/
def escChar (c : Char) : List Char :=
  if c = '\\' then ['\\', '\\'] else if c = '"' then ['\\', '"'] else [c]

/-- Conceptual inverse of the escaping: consume the content of an
AppleScript string literal, turning each backslash-escape back into the
escaped character. -/
def unescapeAS : List Char → List Char
  | [] => []
  | c :: rest =>
    if c = '\\' then
      match rest with
      | [] => []
      | d :: rest2 => d :: unescapeAS rest2
    else c :: unescapeAS rest

/-- Position of the first quote that is *not* protected by a backslash —
the point where an AppleScript string literal would terminate.  `none`
means the whole text stays inside the literal. -/
def firstUnescapedQuote : List Char → Option Nat
  | [] => none
  | c :: rest =>
    if c = '\\' then
      match rest with
      | [] => none
      | _ :: rest2 => (firstUnescapedQuote rest2).map (· + 2)
    else if c = '"' then some 0
    else (firstUnescapedQuote rest).map (· + 1)

/-! ## Process Execution Engine (`base_operations.py`)

`execute_applescript` launches `osascript -e <script>`, awaits
`process.communicate()` under `asyncio.wait_for` (timeout expiry kills the
process and raises `TimeoutError` before any outcome below is produced), and
then classifies the completed run from its return code and captured
streams. -/

/-- Outcome of a completed (non-timed-out) subprocess run. -/
inductive ExecOutcome where
  | nonZeroExit (message : List Char)
  | success (output : List Char)
deriving DecidableEq, Repr

/-- `execute_applescript`'s classification of a completed run: non-zero exit
raises `RuntimeError` with the captured stderr; exit status zero returns
`stdout.decode().strip()`. -/
def executeOutcome (returncode : Int) (stdout stderr : List Char) :
    ExecOutcome :=
  if returncode ≠ 0 then .nonZeroExit (chars "AppleScript error: " ++ stderr)
  else .success (pyStrip stdout)

/-! ## Query Compiler: `find_notes_by_title.py` -/

/-- The shared per-note output block of the title/date script templates. -/
def emitNoteLines : List (List Char) :=
  [chars "                repeat with currentNote in matchingNotes",
   chars "                    set noteName to name of currentNote as string",
   chars "                    set noteID to id of currentNote as string",
   chars "                    set noteFolder to \"Notes\"",
   chars "                    try",
   chars "                        set noteFolder to name of container of currentNote as string",
   chars "                    on error",
   chars "                        set noteFolder to \"Notes\"",
   chars "                    end try",
   chars "                    set creationDate to creation date of currentNote as string",
   chars "                    set modDate to modification date of currentNote as string",
   chars "                    set outputLines to outputLines & \x7bnoteName & \"|||\" & noteID & \"|||\" & noteFolder & \"|||\" & creationDate & \"|||\" & modDate\x7d",
   chars "                end repeat",
   chars "",
   chars "                set AppleScript\x27s text item delimiters to return",
   chars "                set outputText to outputLines as string",
   chars "                set AppleScript\x27s text item delimiters to \"\"",
   chars "                return outputText",
   chars "            on error errMsg",
   chars "                return \"error:iCloud account not available. Please enable iCloud Notes sync - \" & errMsg",
   chars "            end try",
   chars "        end tell",
   chars "        "]

/-- The f-string script template of `find_notes_by_title`, with the
`whose_clause` interpolation point; the template's lines (the f-string
begins with a newline and ends with a newline and eight spaces) are joined
back with the newlines the source text contains. -/
def findTitleScriptLines (whoseClause : List Char) : List (List Char) :=
  [chars "",
   chars "        tell application \"Notes\"",
   chars "            try",
   chars "                set primaryAccount to account \"iCloud\"",
   chars "                -- Use \x27whose\x27 to let Notes filter natively — much faster than looping",
   chars "                set matchingNotes to (every note of primaryAccount " ++
     whoseClause ++ chars ")",
   chars "                set outputLines to \x7b\x7d",
   chars ""] ++ emitNoteLines

/-- The assembled `find_notes_by_title` script text. -/
def findTitleScript (whoseClause : List Char) : List Char :=
  List.intercalate (chars "\n") (findTitleScriptLines whoseClause)

/-- Validation and script assembly of `find_notes_by_title` (everything the
function does before awaiting the subprocess): empty or whitespace-only
titles are rejected; otherwise the stripped title is escaped and embedded in
a native `whose` clause. -/
def findNotesByTitleCompile (title : List Char) (exact : Bool) :
    Except (List Char) (List Char) :=
  if title = [] ∨ pyStrip title = [] then
    .error (chars "Title search string cannot be empty")
  else
    let t := pyStrip title
    let escaped := escapeAS t
    let whoseClause :=
      if exact then chars "whose name is \"" ++ escaped ++ chars "\""
      else chars "whose name contains \"" ++ escaped ++ chars "\""
    .ok (findTitleScript whoseClause)

/-! ## Query Compiler: `search_notes.py` -/

/-- The f-string script template of `search_notes`, with the `keywords_str`
interpolation point, one source line per entry. -/
def searchScriptLines (keywordsStr : List Char) : List (List Char) :=
  [chars "",
   chars "        tell application \"Notes\"",
   chars "            try",
   chars "                set primaryAccount to account \"iCloud\"",
   chars "                set keywords to \x7b" ++ keywordsStr ++ chars "\x7d",
   chars "                set outputLines to \x7b\x7d",
   chars "",
   chars "                repeat with currentNote in every note of primaryAccount",
   chars "                    set noteName to name of currentNote as string",
   chars "                    set noteID to id of currentNote as string",
   chars "                    set noteBody to body of currentNote as string",
   chars "",
   chars "                    -- Get the folder name for this note",
   chars "                    set noteFolder to \"Notes\"",
   chars "                    try",
   chars "                        set noteFolder to name of container of currentNote as string",
   chars "                    on error",
   chars "                        set noteFolder to \"Notes\"",
   chars "                    end try",
   chars "",
   chars "                    -- Check if any keyword matches title OR body",
   chars "                    set foundKeyword to \"\"",
   chars "                    repeat with kw in keywords",
   chars "                        set kwStr to kw as string",
   chars "                        if noteName contains kwStr or noteBody contains kwStr then",
   chars "                            set foundKeyword to kwStr",
   chars "                            exit repeat",
   chars "                        end if",
   chars "                    end repeat",
   chars "",
   chars "                    -- If keyword found, emit a delimited line",
   chars "                    if foundKeyword is not \"\" then",
   chars "                        set outputLines to outputLines & \x7bnoteName & \"|||\" & noteID & \"|||\" & noteFolder & \"|||\" & foundKeyword\x7d",
   chars "                    end if",
   chars "                end repeat",
   chars "",
   chars "                set AppleScript\x27s text item delimiters to return",
   chars "                set outputText to outputLines as string",
   chars "                set AppleScript\x27s text item delimiters to \"\"",
   chars "                return outputText",
   chars "            on error errMsg",
   chars "                return \"error:iCloud account not available. Please enable iCloud Notes sync - \" & errMsg",
   chars "            end try",
   chars "        end tell",
   chars "        "]

/-- The assembled `search_notes` script text. -/
def searchScript (keywordsStr : List Char) : List Char :=
  List.intercalate (chars "\n") (searchScriptLines keywordsStr)

/-- What `search_notes` does before awaiting a subprocess: an empty keyword
list returns `[]` immediately (no script, no error); otherwise every keyword
is escaped, quoted, comma-joined and the script is assembled. -/
inductive SearchPhase where
  | earlyEmpty
  | compiled (script : List Char)
deriving DecidableEq, Repr

/-- Validation and script assembly of `search_notes`. -/
def searchNotesCompile (keywords : List (List Char)) : SearchPhase :=
  if keywords = [] then .earlyEmpty
  else
    let escaped := keywords.map escapeAS
    let keywordsStr :=
      List.intercalate (chars ", ")
        (escaped.map fun kw => chars "\"" ++ kw ++ chars "\"")
    .compiled (searchScript keywordsStr)

/-- Whether a `SearchPhase` assembled a script. -/
def SearchPhase.didCompile : SearchPhase → Bool
  | .earlyEmpty => false
  | .compiled _ => true

/-! ## Query Compiler: `get_most_recent_note.py` (fixed script, no inputs) -/

/-- The script literal of `get_most_recent_note`, one source line per
entry. -/
def mostRecentScriptLines : List (List Char) :=
  [chars "",
   chars "        tell application \"Notes\"",
   chars "            try",
   chars "                set primaryAccount to account \"iCloud\"",
   chars "                set allNotes to every note of primaryAccount",
   chars "                if (count of allNotes) is 0 then",
   chars "                    return \"error:No notes found in iCloud account\"",
   chars "                end if",
   chars "",
   chars "                -- Find the note with the latest modification date",
   chars "                set latestNote to item 1 of allNotes",
   chars "                set latestDate to modification date of latestNote",
   chars "",
   chars "                repeat with currentNote in allNotes",
   chars "                    set currentDate to modification date of currentNote",
   chars "                    if currentDate > latestDate then",
   chars "                        set latestNote to currentNote",
   chars "                        set latestDate to currentDate",
   chars "                    end if",
   chars "                end repeat",
   chars "",
   chars "                set noteName to name of latestNote as string",
   chars "                set noteID to id of latestNote as string",
   chars "                set noteFolder to \"Notes\"",
   chars "                try",
   chars "                    set noteFolder to name of container of latestNote as string",
   chars "                on error",
   chars "                    set noteFolder to \"Notes\"",
   chars "                end try",
   chars "                set creationDate to creation date of latestNote as string",
   chars "                set modDate to modification date of latestNote as string",
   chars "                set noteBody to body of latestNote as string",
   chars "",
   chars "                return \"success:\" & noteName & \"|||\" & noteID & \"|||\" & noteFolder & \"|||\" & creationDate & \"|||\" & modDate & \"|||\" & noteBody",
   chars "            on error errMsg",
   chars "                return \"error:iCloud account not available. Please enable iCloud Notes sync - \" & errMsg",
   chars "            end try",
   chars "        end tell",
   chars "        "]

/-- The assembled `get_most_recent_note` script text. -/
def mostRecentScript : List Char :=
  List.intercalate (chars "\n") mostRecentScriptLines

/-! ## Query Compiler: `find_notes_by_date.py` -/

/-- The f-string script template of `find_notes_by_date`, with the
`whose_clause` interpolation point, one source line per entry. -/
def findDateScriptLines (whoseClause : List Char) : List (List Char) :=
  [chars "",
   chars "        tell application \"Notes\"",
   chars "            try",
   chars "                set primaryAccount to account \"iCloud\"",
   chars "                -- Use \x27whose\x27 with epoch-based dates (locale-independent)",
   chars "                set matchingNotes to (every note of primaryAccount whose " ++
     whoseClause ++ chars ")",
   chars "                set outputLines to \x7b\x7d",
   chars ""] ++ emitNoteLines

/-- The assembled `find_notes_by_date` script text. -/
def findDateScript (whoseClause : List Char) : List Char :=
  List.intercalate (chars "\n") (findDateScriptLines whoseClause)

/-- The AppleScript epoch anchor expression embedded in every date clause. -/
def asEpochAnchor : List Char := chars "date \"January 1, 2001\""

/-- Validation, date parsing and script assembly of `find_notes_by_date`
(everything before the subprocess await), stated over an abstract date
parser `fromiso` standing for the host's `datetime.fromisoformat` (whose
acceptance domain is Python-version-dependent): `fromiso s = none` models
`fromisoformat(s)` raising `ValueError`, `fromiso s = some (y, m, d)`
models it returning a datetime whose date is `(y, m, d)` — the parsed
time-of-day is irrelevant because the source immediately normalizes it with
`replace(hour=0, minute=0, second=0, microsecond=0)` for `after` and
`replace(hour=23, minute=59, second=59, microsecond=0)` for `before`.
Returns the `whose_parts` list together with the assembled script, or the
`ValueError` message raised. -/
def findNotesByDateCompileWith
    (fromiso : List Char → Option (Nat × Nat × Nat))
    (dateType after before : List Char) :
    Except (List Char) (List (List Char) × List Char) :=
  let dt := pyLower (pyStrip dateType)
  if dt ≠ chars "created" ∧ dt ≠ chars "modified" then
    .error (chars "date_type must be \x27created\x27 or \x27modified\x27")
  else if after = [] ∧ before = [] then
    .error
      (chars "At least one of \x27after\x27 or \x27before\x27 must be provided")
  else
    let afterP : Except (List Char) (Option (Nat × Nat × Nat)) :=
      if after = [] then .ok none
      else
        match fromiso (pyStrip after) with
        | some d => .ok (some d)
        | none =>
          .error (chars "Invalid \x27after\x27 date \x27" ++ after ++
            chars "\x27. Use ISO 8601 format e.g. \x272024-01-15\x27")
    match afterP with
    | .error e => .error e
    | .ok aOpt =>
      let beforeP : Except (List Char) (Option (Nat × Nat × Nat)) :=
        if before = [] then .ok none
        else
          match fromiso (pyStrip before) with
          | some d => .ok (some d)
          | none =>
            .error (chars "Invalid \x27before\x27 date \x27" ++ before ++
              chars "\x27. Use ISO 8601 format e.g. \x272024-12-31\x27")
      match beforeP with
      | .error e => .error e
      | .ok bOpt =>
        let dateProperty :=
          if dt = chars "created" then chars "creation date"
          else chars "modification date"
        let whoseParts :=
          (aOpt.map fun x =>
            dateProperty ++ chars " >= (" ++ asEpochAnchor ++ chars " + " ++
              intStr (to_as_seconds x.1 x.2.1 x.2.2 0 0 0) ++
              chars ")").toList ++
          (bOpt.map fun x =>
            dateProperty ++ chars " <= (" ++ asEpochAnchor ++ chars " + " ++
              intStr (to_as_seconds x.1 x.2.1 x.2.2 23 59 59) ++
              chars ")").toList
        let whoseClause := List.intercalate (chars " and ") whoseParts
        .ok (whoseParts, findDateScript whoseClause)

/-- `find_notes_by_date`'s compile phase at the concrete calendar-date
parser model (the domain all of this development's date inputs live on,
where `parseIsoDate` and `fromisoformat` agree). -/
def findNotesByDateCompile (dateType after before : List Char) :
    Except (List Char) (List (List Char) × List Char) :=
  findNotesByDateCompileWith parseIsoDate dateType after before

/-- Whether an `Except` is a success. -/
def exceptIsOk {ε α : Type} : Except ε α → Bool
  | .ok _ => true
  | .error _ => false

/-! ## Result Decoders -/

/-- `FindNotesByDateOperations._parse_results`: strip, normalize all three
line-ending conventions to `\n`, split, then decode each non-empty line with
at least five `|||`-separated fields. -/
def parse_results_date (result : List Char) : List NoteRecord :=
  if result = [] ∨ pyStrip result = [] then []
  else
    (pySplit (chars "\n")
      (replaceL (chars "\r") (chars "\n")
        (replaceL (chars "\r\n") (chars "\n") (pyStrip result)))).filterMap
      fun line0 =>
        let line := pyStrip line0
        if line = [] then none
        else
          let parts := pySplit (chars "|||") line
          if parts.length < 5 then none
          else
            some ⟨extract_primary_key (parts.getD 1 []), parts.getD 0 [],
              parts.getD 2 [], parts.getD 3 [], parts.getD 4 []⟩

/-- `FindNotesByTitleOperations._parse_results`: strip, split on `"\r"`,
then decode each non-empty line with at least five fields. -/
def parse_results_title (result : List Char) : List NoteRecord :=
  if result = [] ∨ pyStrip result = [] then []
  else
    (pySplit (chars "\r") (pyStrip result)).filterMap fun line0 =>
      let line := pyStrip line0
      if line = [] then none
      else
        let parts := pySplit (chars "|||") line
        if parts.length < 5 then none
        else
          some ⟨extract_primary_key (parts.getD 1 []), parts.getD 0 [],
            parts.getD 2 [], parts.getD 3 [], parts.getD 4 []⟩

/-- `SearchNotesOperations._parse_search_results`: strip, split on `"\r"`,
decode each non-empty line with at least four fields, and additionally keep
only records whose derived short id and name are both non-empty. -/
def parse_search_results (result : List Char) : List SearchRecord :=
  if result = [] ∨ pyStrip result = [] then []
  else
    (pySplit (chars "\r") (pyStrip result)).filterMap fun line0 =>
      let line := pyStrip line0
      if line = [] then none
      else
        let parts := pySplit (chars "|||") line
        if parts.length < 4 then none
        else
          let short_id := extract_primary_key (parts.getD 1 [])
          if short_id ≠ [] ∧ parts.getD 0 [] ≠ [] then
            some ⟨short_id, parts.getD 0 [], parts.getD 2 [], parts.getD 3 []⟩
          else none

/-- `ListNotesOperations._parse_notes_list`: strip, split on `"\r"`, then
decode each non-empty line with at least five fields. -/
def parse_notes_list (result : List Char) : List NoteRecord :=
  if pyStrip result = [] then []
  else
    (pySplit (chars "\r") (pyStrip result)).filterMap fun line0 =>
      let line := pyStrip line0
      if line = [] then none
      else
        let parts := pySplit (chars "|||") line
        if parts.length < 5 then none
        else
          some ⟨extract_primary_key (parts.getD 1 []), parts.getD 0 [],
            parts.getD 2 [], parts.getD 3 [], parts.getD 4 []⟩

/-- `GetMostRecentNoteOperations._parse_result`: require the `success:`
prefix, strip it, split on `|||` at most five times (`maxsplit = 5`) so the
body — the final field — absorbs interior delimiters, and require six
fields. -/
def parse_result_recent (result : List Char) : Except (List Char) RecentRecord :=
  if ¬ (chars "success:").isPrefixOf result then
    .error (chars "Unexpected result format: " ++ result)
  else
    let content := result.drop 8
    let parts := pySplitML (chars "|||") 5 content
    if parts.length < 6 then
      .error (chars "Incomplete result from AppleScript: " ++ result)
    else
      .ok ⟨extract_primary_key (parts.getD 1 []), parts.getD 0 [],
        parts.getD 2 [], parts.getD 3 [], parts.getD 4 [], parts.getD 5 []⟩

/-- Post-processing of `find_notes_by_date` after a successful run
(`dateTypeNorm` is the already-validated, normalized date type): the
`error:` sentinel raises `RuntimeError`; otherwise the decoded records are
re-sorted newest-first by the selected date field, compared as strings. -/
def findNotesByDatePost (dateTypeNorm raw : List Char) :
    Except (List Char) (List NoteRecord) :=
  if (chars "error:").isPrefixOf raw then
    .error (chars "Failed to find notes by date: " ++ raw.drop 6)
  else
    let sortKey : NoteRecord → List Char :=
      if dateTypeNorm = chars "modified" then (·.modification_date)
      else (·.creation_date)
    .ok (sortDesc sortKey (parse_results_date raw))

/-- Follows the spec's words (for comparison with the compiler's output):
the lower-bound filter clause compares the selected date property, with
`>=`, against the fixed anchor instant plus the whole-second offset of local
midnight of the `after` day — `86400` seconds per day elapsed since the
anchor date. -/
def specLowerClause (prop : List Char) (y m d : Nat) : List Char :=
  prop ++ chars " >= (" ++ asEpochAnchor ++ chars " + " ++
    intStr (86400 * ((toOrdinal y m d : Int) - (toOrdinal 2001 1 1 : Int))) ++
    chars ")"

/-- Follows the spec's words (for comparison with the compiler's output):
the upper-bound filter clause compares the selected date property, with
`<=`, against the anchor plus the offset of local `23:59:59` of the
`before` day — a whole day's seconds minus one past that day's midnight. -/
def specUpperClause (prop : List Char) (y m d : Nat) : List Char :=
  prop ++ chars " <= (" ++ asEpochAnchor ++ chars " + " ++
    intStr (86400 * ((toOrdinal y m d : Int) - (toOrdinal 2001 1 1 : Int))
      + 86399) ++
    chars ")"

/-!
# Theorems

First the infrastructure lemmas about the embedded Python primitives, then
one theorem (plus witness or counterexample) per claim of the specification.
-/

theorem findSub_le (sep : List Char) :
    ∀ s i, findSub sep s = some i → i + sep.length ≤ s.length := by
  intro s
  induction s with
  | nil =>
    intro i h
    simp only [findSub] at h
    split at h
    · cases h
      simp_all [List.isEmpty_iff]
    · cases h
  | cons c cs ih =>
    intro i h
    simp only [findSub] at h
    split at h
    · cases h
      have hpre := List.isPrefixOf_iff_prefix.mp (by assumption)
      simpa using hpre.length_le
    · rcases Option.map_eq_some'.mp h with ⟨j, hj, rfl⟩
      have := ih j hj
      simp only [List.length_cons]
      omega

theorem findSub_none_nil (sep : List Char) (hsep : sep ≠ []) :
    findSub sep [] = none := by
  simp [findSub, List.isEmpty_iff, hsep]

theorem pySplitFuel_nil (sep : List Char) (hsep : sep ≠ []) (fuel : Nat) :
    pySplitFuel sep fuel [] = [[]] := by
  cases fuel with
  | zero => rfl
  | succ f => simp [pySplitFuel, findSub_none_nil sep hsep]

theorem pySplitFuel_invar (sep : List Char) (hsep : sep ≠ []) :
    ∀ n fuel fuel' (s : List Char), s.length ≤ n →
      s.length ≤ fuel → s.length ≤ fuel' →
      pySplitFuel sep fuel s = pySplitFuel sep fuel' s := by
  intro n
  induction n with
  | zero =>
    intro fuel fuel' s hs _ _
    have : s = [] := List.length_eq_zero.mp (Nat.le_zero.mp hs)
    subst this
    rw [pySplitFuel_nil sep hsep, pySplitFuel_nil sep hsep]
  | succ m ih =>
    intro fuel fuel' s hs hf hf'
    match s, fuel, fuel' with
    | [], _, _ => rw [pySplitFuel_nil sep hsep, pySplitFuel_nil sep hsep]
    | a :: t, f + 1, g + 1 =>
      cases hfind : findSub sep (a :: t) with
      | none => simp [pySplitFuel, hfind]
      | some i =>
        have hle := findSub_le sep (a :: t) i hfind
        have hpos : 0 < sep.length := List.length_pos.mpr hsep
        simp only [List.length_cons] at hs hf hf'
        have hlen : ((a :: t).drop (i + sep.length)).length = t.length + 1 - (i + sep.length) := by
          simp [List.length_drop]
        simp only [List.length_cons] at hle
        simp only [pySplitFuel, hfind]
        rw [ih f g ((a :: t).drop (i + sep.length))
          (by rw [hlen]; omega) (by rw [hlen]; omega) (by rw [hlen]; omega)]

theorem pySplitFuel_big (sep : List Char) (hsep : sep ≠ []) (fuel : Nat)
    (s : List Char) (h : s.length ≤ fuel) :
    pySplitFuel sep fuel s = pySplit sep s := by
  exact pySplitFuel_invar sep hsep (s.length) fuel (s.length + 1) s le_rfl h
    (Nat.le_succ _)

theorem intercalate_nil_ (sep : List Char) :
    List.intercalate sep ([] : List (List Char)) = [] := by
  simp [List.intercalate]

theorem intercalate_single (sep x : List Char) :
    List.intercalate sep [x] = x := by
  simp [List.intercalate]

theorem intercalate_cons₂ (sep x y : List Char) (ys : List (List Char)) :
    List.intercalate sep (x :: y :: ys) = x ++ sep ++ List.intercalate sep (y :: ys) := by
  simp [List.intercalate, List.intersperse_cons_cons]

theorem pySplitFuel_ne_nil (sep : List Char) (fuel : Nat) (s : List Char) :
    pySplitFuel sep fuel s ≠ [] := by
  cases fuel with
  | zero => simp [pySplitFuel]
  | succ f =>
    simp only [pySplitFuel]
    cases findSub sep s <;> simp

theorem pySplitFuel_succ (sep : List Char) (f : Nat) (t : List Char) :
    pySplitFuel sep (f + 1) t =
      match findSub sep t with
      | none => [t]
      | some i => t.take i :: pySplitFuel sep f (t.drop (i + sep.length)) :=
  rfl

theorem pySplit_cons_single (b c : Char) (s : List Char) :
    pySplit [b] (c :: s) =
      if c = b then [] :: pySplit [b] s
      else (pySplit [b] s).modifyHead (c :: ·) := by
  have hsep : ([b] : List Char) ≠ [] := by simp
  have hunfold : pySplit [b] (c :: s) =
      pySplitFuel [b] (s.length + 2) (c :: s) := rfl
  have hpre : ([b] : List Char).isPrefixOf (c :: s) = (b == c) := by
    simp [List.isPrefixOf]
  by_cases hcb : c = b
  · subst hcb
    have hfind0 : findSub [c] (c :: s) = some 0 := by
      simp [findSub, List.isPrefixOf]
    rw [hunfold, if_pos rfl, pySplitFuel_succ, hfind0]
    rfl
  · have hbc : (b == c) = false := beq_eq_false_iff_ne.mpr (fun h => hcb h.symm)
    have hfind : findSub [b] (c :: s) = (findSub [b] s).map (· + 1) := by
      simp [findSub, hpre, hbc]
    rw [hunfold, if_neg hcb, pySplitFuel_succ, hfind]
    cases hf : findSub [b] s with
    | none =>
      have hsplit : pySplit [b] s = [s] := by
        show pySplitFuel [b] (s.length + 1) s = [s]
        rw [pySplitFuel_succ, hf]
      rw [hsplit]
      rfl
    | some i =>
      have hle := findSub_le [b] s i hf
      simp only [List.length_singleton] at hle
      have hsplit : pySplit [b] s =
          s.take i :: pySplitFuel [b] s.length (s.drop (i + 1)) := by
        show pySplitFuel [b] (s.length + 1) s = _
        rw [pySplitFuel_succ, hf]
        rfl
      rw [hsplit]
      simp only [Option.map_some', List.modifyHead, List.length_singleton,
        List.take_succ_cons, List.drop_succ_cons]
      refine congrArg (List.cons (c :: s.take i)) ?_
      exact pySplitFuel_invar [b] hsep s.length (s.length + 1) s.length
        (s.drop (i + 1)) (by simp [List.length_drop])
        (by simp [List.length_drop]; omega)
        (by simp [List.length_drop])

theorem intercalate_nil_cons (new : List Char) (l : List (List Char))
    (h : l ≠ []) :
    List.intercalate new ([] :: l) = new ++ List.intercalate new l := by
  cases l with
  | nil => exact absurd rfl h
  | cons y ys => rw [intercalate_cons₂]; rfl

theorem intercalate_modifyHead (new : List Char) (c : Char)
    (l : List (List Char)) (h : l ≠ []) :
    List.intercalate new (l.modifyHead (c :: ·)) =
      c :: List.intercalate new l := by
  cases l with
  | nil => exact absurd rfl h
  | cons y ys =>
    cases ys with
    | nil => simp [List.modifyHead, intercalate_single]
    | cons z zs =>
      simp only [List.modifyHead, intercalate_cons₂]
      rfl

theorem replace_single (b : Char) (new : List Char) (s : List Char) :
    replaceL [b] new s = s.flatMap (fun c => if c = b then new else [c]) := by
  induction s with
  | nil =>
    simp [replaceL, pySplit, pySplitFuel_nil [b] (by simp),
      intercalate_single]
  | cons c s ih =>
    have hne : pySplit [b] s ≠ [] := pySplitFuel_ne_nil [b] (s.length + 1) s
    show List.intercalate new (pySplit [b] (c :: s)) = _
    rw [pySplit_cons_single]
    by_cases hcb : c = b
    · subst hcb
      rw [if_pos rfl, intercalate_nil_cons new _ hne]
      simp only [List.flatMap_cons, if_pos rfl]
      exact congrArg (new ++ ·) ih
    · rw [if_neg hcb, intercalate_modifyHead new c _ hne]
      simp only [List.flatMap_cons, if_neg hcb, List.singleton_append]
      exact congrArg (c :: ·) ih

theorem escChar_other (c : Char) (h1 : c ≠ '\\') (h2 : c ≠ '"') :
    escChar c = [c] := by
  simp [escChar, h1, h2]

theorem unescapeAS_bs (d : Char) (t : List Char) :
    unescapeAS ('\\' :: d :: t) = d :: unescapeAS t := rfl

theorem unescapeAS_other (c : Char) (t : List Char) (h : c ≠ '\\') :
    unescapeAS (c :: t) = c :: unescapeAS t := by
  rw [unescapeAS.eq_def]
  simp [h]

theorem fuq_bs (d : Char) (t : List Char) :
    firstUnescapedQuote ('\\' :: d :: t) =
      (firstUnescapedQuote t).map (· + 2) := rfl

theorem fuq_other (c : Char) (t : List Char) (h1 : c ≠ '\\') (h2 : c ≠ '"') :
    firstUnescapedQuote (c :: t) = (firstUnescapedQuote t).map (· + 1) := by
  rw [firstUnescapedQuote.eq_def]
  simp [h1, h2]

theorem escapeAS_eq_flatMap (s : List Char) :
    escapeAS s = s.flatMap escChar := by
  show replaceL ['"'] ['\\', '"'] (replaceL ['\\'] ['\\', '\\'] s) = _
  rw [replace_single, replace_single, List.flatMap_assoc]
  refine congrArg (List.flatMap s) (funext fun c => ?_)
  by_cases h1 : c = '\\'
  · subst h1; rfl
  · by_cases h2 : c = '"'
    · subst h2; rfl
    · simp [h1, h2, escChar]

theorem unescape_flatMap (s : List Char) :
    unescapeAS (s.flatMap escChar) = s := by
  induction s with
  | nil => rfl
  | cons c s ih =>
    rw [List.flatMap_cons]
    by_cases h1 : c = '\\'
    · subst h1
      rw [show escChar '\\' = ['\\', '\\'] from rfl, List.cons_append,
        List.cons_append, List.nil_append, unescapeAS_bs, ih]
    · by_cases h2 : c = '"'
      · subst h2
        rw [show escChar '"' = ['\\', '"'] from rfl, List.cons_append,
          List.cons_append, List.nil_append, unescapeAS_bs, ih]
      · rw [escChar_other c h1 h2, List.cons_append, List.nil_append,
          unescapeAS_other c _ h1, ih]

theorem quote_flatMap (s : List Char) :
    firstUnescapedQuote (s.flatMap escChar) = none := by
  induction s with
  | nil => rfl
  | cons c s ih =>
    rw [List.flatMap_cons]
    by_cases h1 : c = '\\'
    · subst h1
      rw [show escChar '\\' = ['\\', '\\'] from rfl, List.cons_append,
        List.cons_append, List.nil_append, fuq_bs, ih]
      rfl
    · by_cases h2 : c = '"'
      · subst h2
        rw [show escChar '"' = ['\\', '"'] from rfl, List.cons_append,
          List.cons_append, List.nil_append, fuq_bs, ih]
        rfl
      · rw [escChar_other c h1 h2, List.cons_append, List.nil_append,
          fuq_other c _ h1 h2, ih]
        rfl

/-- C3: for every non-empty caller-supplied text interpolated into a
compiled script, the escaping step (`.replace("\\", "\\\\")` followed by
`.replace('"', '\\"')` in `find_notes_by_title.py` and `search_notes.py`)
doubles every backslash and then backslash-prefixes every double quote
(character-wise `escChar`); conceptually unescaping the escaped text
round-trips to the original, and the escaped text contains no unescaped
quote that could terminate the AppleScript string literal early. -/
theorem c3_escape_roundtrip_no_breakout (s : List Char) (_hne : s ≠ []) :
    escapeAS s = s.flatMap escChar ∧
    unescapeAS (escapeAS s) = s ∧
    firstUnescapedQuote (escapeAS s) = none := by
  refine ⟨escapeAS_eq_flatMap s, ?_, ?_⟩
  · rw [escapeAS_eq_flatMap]; exact unescape_flatMap s
  · rw [escapeAS_eq_flatMap]; exact quote_flatMap s

/-- Witness for C3 at the concrete title `say "hi" \ bye`. -/
theorem c3_escape_roundtrip_no_breakout_witness :
    chars "say \"hi\" \\ bye" ≠ [] ∧
    (escapeAS (chars "say \"hi\" \\ bye") =
        (chars "say \"hi\" \\ bye").flatMap escChar ∧
      unescapeAS (escapeAS (chars "say \"hi\" \\ bye")) =
        chars "say \"hi\" \\ bye" ∧
      firstUnescapedQuote (escapeAS (chars "say \"hi\" \\ bye")) = none) :=
  ⟨by decide, c3_escape_roundtrip_no_breakout (chars "say \"hi\" \\ bye")
    (by decide)⟩

theorem dropWhile_head_not (p : Char → Bool) :
    ∀ (l : List Char) (c : Char), (l.dropWhile p).head? = some c → p c = false := by
  intro l
  induction l with
  | nil => intro c h; simp at h
  | cons a t ih =>
    intro c h
    rw [List.dropWhile_cons] at h
    by_cases hp : p a
    · rw [if_pos hp] at h
      exact ih c h
    · rw [if_neg hp] at h
      simp only [List.head?_cons, Option.some.injEq] at h
      subst h
      exact Bool.eq_false_iff.mpr hp

theorem pyStrip_decomposition (s : List Char) :
    s = s.takeWhile isWS ++ pyStrip s ++
        ((s.dropWhile isWS).reverse.takeWhile isWS).reverse := by
  have h1 : s.takeWhile isWS ++ s.dropWhile isWS = s :=
    List.takeWhile_append_dropWhile isWS s
  set u := s.dropWhile isWS with hu
  have h2 : u.reverse.takeWhile isWS ++ u.reverse.dropWhile isWS = u.reverse :=
    List.takeWhile_append_dropWhile isWS u.reverse
  have h3 : u = (u.reverse.dropWhile isWS).reverse ++
      (u.reverse.takeWhile isWS).reverse := by
    have hr := congrArg List.reverse h2
    rw [List.reverse_append, List.reverse_reverse] at hr
    exact hr.symm
  calc s = s.takeWhile isWS ++ u := h1.symm
    _ = s.takeWhile isWS ++ ((u.reverse.dropWhile isWS).reverse ++
          (u.reverse.takeWhile isWS).reverse) := by rw [← h3]
    _ = _ := by rw [← List.append_assoc]; rfl

theorem pyStrip_head_not_ws (s : List Char) (c : Char)
    (h : (pyStrip s).head? = some c) : isWS c = false := by
  have hne : pyStrip s ≠ [] := by
    intro hnil
    rw [hnil] at h
    simp at h
  have hrev : (pyStrip s) ++ ((s.dropWhile isWS).reverse.takeWhile isWS).reverse
      = s.dropWhile isWS := by
    have h2 := List.takeWhile_append_dropWhile isWS (s.dropWhile isWS).reverse
    have := congrArg List.reverse h2
    rwa [List.reverse_append, List.reverse_reverse] at this
  have hh : (s.dropWhile isWS).head? = some c := by
    rw [← hrev, List.head?_append, h]
    rfl
  exact dropWhile_head_not isWS s c hh

theorem pyStrip_getLast_not_ws (s : List Char) (c : Char)
    (h : (pyStrip s).getLast? = some c) : isWS c = false := by
  have hh : ((s.dropWhile isWS).reverse.dropWhile isWS).head? = some c := by
    have : (pyStrip s).reverse = (s.dropWhile isWS).reverse.dropWhile isWS := by
      simp [pyStrip]
    rw [← this, List.head?_reverse]
    exact h
  exact dropWhile_head_not isWS _ c hh

/-- C9 counterexample: the claim says leading whitespace is returned
unchanged, but on stdout `"  x"` with exit status zero, `execute_applescript`
returns `"x"`: Python's `str.strip()` removes the leading whitespace too. -/
theorem c9_strip_both_ends_counterexample :
    executeOutcome 0 (chars "  x") [] = ExecOutcome.success (chars "x") ∧
    chars "x" ≠ chars "  x" := by
  constructor
  · rfl
  · decide

/-- C9 (amended): on a normal exit with status zero `execute_applescript`
returns the captured stdout stripped of both leading and trailing
whitespace: the returned text is an interior slice of stdout (what was
removed on each side is all whitespace) and itself neither starts nor ends
with whitespace. -/
theorem c9_success_returns_stripped_output (stdout stderr : List Char) :
    executeOutcome 0 stdout stderr = ExecOutcome.success (pyStrip stdout) ∧
    (∃ pre suf, stdout = pre ++ pyStrip stdout ++ suf ∧
      pre.all isWS = true ∧ suf.all isWS = true) ∧
    (∀ c, (pyStrip stdout).head? = some c → isWS c = false) ∧
    (∀ c, (pyStrip stdout).getLast? = some c → isWS c = false) := by
  refine ⟨by simp [executeOutcome], ⟨stdout.takeWhile isWS,
    ((stdout.dropWhile isWS).reverse.takeWhile isWS).reverse,
    pyStrip_decomposition stdout, ?_, ?_⟩,
    pyStrip_head_not_ws stdout, pyStrip_getLast_not_ws stdout⟩
  · rw [List.all_eq_true]
    intro x hx
    exact List.mem_takeWhile_imp hx
  · rw [List.all_eq_true]
    intro x hx
    rw [List.mem_reverse] at hx
    exact List.mem_takeWhile_imp hx

/-- C6 counterexample: a keyword query with no non-empty search terms does
not raise a validation error: `search_notes([])` returns the empty result
list before compiling anything, and `search_notes([""])` compiles and runs a
script. -/
theorem c6_empty_keywords_counterexample :
    searchNotesCompile [] = SearchPhase.earlyEmpty ∧
    (searchNotesCompile [[]]).didCompile = true := by
  exact ⟨rfl, rfl⟩

/-- C6 (amended): an empty or whitespace-only title raises the validation
error before any script is assembled; a keyword query with an *empty
keyword list* returns an empty result without compiling, and any non-empty
keyword list — even one containing only empty strings — compiles a
script. -/
theorem c6_empty_term_validation (title : List Char) (exact_ : Bool)
    (h : pyStrip title = []) :
    findNotesByTitleCompile title exact_ =
      Except.error (chars "Title search string cannot be empty") ∧
    searchNotesCompile [] = SearchPhase.earlyEmpty ∧
    (∀ ks : List (List Char), ks ≠ [] →
      (searchNotesCompile ks).didCompile = true) := by
  refine ⟨?_, rfl, ?_⟩
  · rw [findNotesByTitleCompile, if_pos (Or.inr h)]
  · intro ks hks
    rw [searchNotesCompile, if_neg hks]
    rfl

/-- Witness for C6 at the whitespace-only title `"   "` and the keyword
list `[""]`. -/
theorem c6_empty_term_validation_witness :
    pyStrip (chars "   ") = [] ∧
    (findNotesByTitleCompile (chars "   ") false =
        Except.error (chars "Title search string cannot be empty") ∧
      searchNotesCompile [] = SearchPhase.earlyEmpty ∧
      (∀ ks : List (List Char), ks ≠ [] →
        (searchNotesCompile ks).didCompile = true)) :=
  ⟨by decide, c6_empty_term_validation (chars "   ") false (by decide)⟩

/-- C5 counterexample: the claim requires a validation error whenever
`date_type` is not exactly `'created'` or `'modified'`, but the code first
normalizes with `.strip().lower()`, so `date_type = "MODIFIED"` — which is
neither of the two values — compiles successfully instead of raising. -/
theorem c5_date_type_normalized_counterexample :
    exceptIsOk (findNotesByDateCompile (chars "MODIFIED")
      (chars "2024-01-01") []) = true ∧
    chars "MODIFIED" ≠ chars "created" ∧
    chars "MODIFIED" ≠ chars "modified" := by
  refine ⟨rfl, by decide, by decide⟩

/-- C5 (amended): validation runs before any script is assembled or
subprocess spawned, and raises when: the date type, *after stripping
whitespace and lowercasing*, is not `'created'` or `'modified'`; or neither
`after` nor `before` is supplied; or a supplied date string is not parseable
by the host's `datetime.fromisoformat`, in which case the error message
names the offending value and the expected ISO 8601 format.  Stated over an
arbitrary parser `fromiso` standing for `fromisoformat` (whose acceptance
domain is Python-version-dependent), so the date-error conjuncts assert a
`ValueError` exactly at the inputs the host parser rejects. -/
theorem c5_validation_before_compile
    (fromiso : List Char → Option (Nat × Nat × Nat))
    (dateType after before : List Char) :
    (pyLower (pyStrip dateType) ≠ chars "created" ∧
        pyLower (pyStrip dateType) ≠ chars "modified" →
      findNotesByDateCompileWith fromiso dateType after before =
        Except.error (chars "date_type must be \x27created\x27 or \x27modified\x27")) ∧
    ((pyLower (pyStrip dateType) = chars "created" ∨
        pyLower (pyStrip dateType) = chars "modified") →
      after = [] → before = [] →
      findNotesByDateCompileWith fromiso dateType after before =
        Except.error
          (chars "At least one of \x27after\x27 or \x27before\x27 must be provided")) ∧
    ((pyLower (pyStrip dateType) = chars "created" ∨
        pyLower (pyStrip dateType) = chars "modified") →
      after ≠ [] → fromiso (pyStrip after) = none →
      findNotesByDateCompileWith fromiso dateType after before =
        Except.error (chars "Invalid \x27after\x27 date \x27" ++ after ++
          chars "\x27. Use ISO 8601 format e.g. \x272024-01-15\x27")) ∧
    ((pyLower (pyStrip dateType) = chars "created" ∨
        pyLower (pyStrip dateType) = chars "modified") →
      (after = [] ∨ ∃ d, fromiso (pyStrip after) = some d) →
      before ≠ [] → fromiso (pyStrip before) = none →
      findNotesByDateCompileWith fromiso dateType after before =
        Except.error (chars "Invalid \x27before\x27 date \x27" ++ before ++
          chars "\x27. Use ISO 8601 format e.g. \x272024-12-31\x27")) := by
  have hok : ∀ (h : pyLower (pyStrip dateType) = chars "created" ∨
      pyLower (pyStrip dateType) = chars "modified"),
      ¬ (pyLower (pyStrip dateType) ≠ chars "created" ∧
        pyLower (pyStrip dateType) ≠ chars "modified") := by
    rintro (h | h) ⟨h1, h2⟩
    · exact h1 h
    · exact h2 h
  refine ⟨?_, ?_, ?_, ?_⟩
  · intro hbad
    rw [findNotesByDateCompileWith, if_pos hbad]
  · intro hdt ha hb
    rw [findNotesByDateCompileWith, if_neg (hok hdt), if_pos ⟨ha, hb⟩]
  · intro hdt ha hpa
    rw [findNotesByDateCompileWith, if_neg (hok hdt),
      if_neg (fun hc => ha hc.1), if_neg ha, hpa]
  · intro hdt ha hb hpb
    rw [findNotesByDateCompileWith, if_neg (hok hdt),
      if_neg (fun hc => hb hc.2)]
    rcases ha with ha | ⟨d, hd⟩
    · rw [if_pos ha, if_neg hb, hpb]
    · by_cases hae : after = []
      · rw [if_pos hae, if_neg hb, hpb]
      · rw [if_neg hae, hd, if_neg hb, hpb]

/-- Witness for C5 at four concrete inputs, one per validation branch,
instantiating the abstract parser at the concrete calendar-date model
(on these inputs `parseIsoDate` and the host's `fromisoformat` agree:
`Jan 5` and `2024-31-12` are rejected by every Python version). -/
theorem c5_validation_before_compile_witness :
    (findNotesByDateCompile (chars "weekly") (chars "2024-01-01") [] =
      Except.error (chars "date_type must be \x27created\x27 or \x27modified\x27")) ∧
    (findNotesByDateCompile (chars "created") [] [] =
      Except.error
        (chars "At least one of \x27after\x27 or \x27before\x27 must be provided")) ∧
    (findNotesByDateCompile (chars "modified") (chars "Jan 5") [] =
      Except.error (chars "Invalid \x27after\x27 date \x27" ++ chars "Jan 5" ++
        chars "\x27. Use ISO 8601 format e.g. \x272024-01-15\x27")) ∧
    (findNotesByDateCompile (chars "modified") (chars "2024-01-01")
        (chars "2024-31-12") =
      Except.error (chars "Invalid \x27before\x27 date \x27" ++
        chars "2024-31-12" ++
        chars "\x27. Use ISO 8601 format e.g. \x272024-12-31\x27")) :=
  ⟨(c5_validation_before_compile parseIsoDate (chars "weekly")
        (chars "2024-01-01") []).1
      ⟨by decide, by decide⟩,
    (c5_validation_before_compile parseIsoDate (chars "created") [] []).2.1
      (Or.inl (by decide)) rfl rfl,
    (c5_validation_before_compile parseIsoDate (chars "modified")
        (chars "Jan 5") []).2.2.1
      (Or.inr (by decide)) (by decide) (by decide),
    (c5_validation_before_compile parseIsoDate (chars "modified")
        (chars "2024-01-01") (chars "2024-31-12")).2.2.2
      (Or.inr (by decide)) (Or.inr ⟨(2024, 1, 1), by decide⟩)
      (by decide) (by decide)⟩

theorem findSub_shift (a : Char) (t : List Char) :
    ∀ (x r : List Char), a ∉ x →
      findSub (a :: t) (x ++ r) = (findSub (a :: t) r).map (· + x.length) := by
  intro x
  induction x with
  | nil =>
    intro r _
    simp only [List.nil_append, List.length_nil]
    cases findSub (a :: t) r <;> simp
  | cons c x' ih =>
    intro r hmem
    have hca : ¬ (a :: t).isPrefixOf (c :: (x' ++ r)) := by
      intro hpre
      have := List.isPrefixOf_iff_prefix.mp hpre
      rcases this with ⟨w, hw⟩
      have : a = c := by
        have := congrArg (·.head?) hw
        simpa using this
      exact hmem (this ▸ List.mem_cons_self a x')
    have hax' : a ∉ x' := fun hx => hmem (List.mem_cons_of_mem c hx)
    show findSub (a :: t) (c :: (x' ++ r)) = _
    rw [findSub, if_neg hca, ih r hax']
    cases findSub (a :: t) r with
    | none => simp
    | some v =>
      simp only [Option.map_some', List.length_cons]
      refine congrArg some ?_
      omega

theorem findSub_self_append (a : Char) (t r : List Char) :
    findSub (a :: t) ((a :: t) ++ r) = some 0 := by
  have : (a :: t).isPrefixOf ((a :: t) ++ r) :=
    List.isPrefixOf_iff_prefix.mpr (List.prefix_append (a :: t) r)
  cases t with
  | nil => simp [findSub, this]
  | cons b t' => simp [findSub, this]

theorem splitFuel_step (a : Char) (t : List Char) (fuel : Nat)
    (x r : List Char) (hx : a ∉ x) :
    pySplitFuel (a :: t) (fuel + 1) (x ++ ((a :: t) ++ r)) =
      x :: pySplitFuel (a :: t) fuel r := by
  have hfind : findSub (a :: t) (x ++ ((a :: t) ++ r)) = some x.length := by
    rw [findSub_shift a t x _ hx, findSub_self_append]
    simp
  rw [pySplitFuel_succ, hfind]
  have htake : (x ++ ((a :: t) ++ r)).take x.length = x :=
    List.take_left x ((a :: t) ++ r)
  have hdrop : (x ++ ((a :: t) ++ r)).drop (x.length + (a :: t).length) = r := by
    have hassoc : x ++ ((a :: t) ++ r) = (x ++ (a :: t)) ++ r :=
      (List.append_assoc x (a :: t) r).symm
    rw [hassoc, show x.length + (a :: t).length = (x ++ (a :: t)).length by
      simp, List.drop_left]
  simp only [htake, hdrop]

theorem splitFuel_zero (sep s : List Char) : pySplitFuel sep 0 s = [s] := rfl

theorem splitFuel_len_le (sep : List Char) :
    ∀ (fuel : Nat) (s : List Char),
      (pySplitFuel sep fuel s).length ≤ fuel + 1 := by
  intro fuel
  induction fuel with
  | zero => intro s; simp [pySplitFuel]
  | succ f ih =>
    intro s
    rw [pySplitFuel_succ]
    cases findSub sep s with
    | none => simp
    | some i =>
      simp only [List.length_cons]
      exact Nat.succ_le_succ (ih _)

/-- C8: `_parse_result` of `get_most_recent_note.py` splits the success
payload on `|||` at most five times (`maxsplit = 5`, hence at most six
fields), so the body — always the final field — absorbs any `|||` sequences
inside it, and the five earlier fields (none of which contains the
delimiter's character `|`) are decoded unshifted and untruncated. -/
theorem c8_recent_split_limit_body_last
    (nm idf fd cd md body : List Char)
    (h1 : '|' ∉ nm) (h2 : '|' ∉ idf) (h3 : '|' ∉ fd)
    (h4 : '|' ∉ cd) (h5 : '|' ∉ md) :
    (∀ content : List Char,
      (pySplitML (chars "|||") 5 content).length ≤ 6) ∧
    parse_result_recent (chars "success:" ++
        (nm ++ (chars "|||" ++ (idf ++ (chars "|||" ++ (fd ++
          (chars "|||" ++ (cd ++ (chars "|||" ++ (md ++
            (chars "|||" ++ body))))))))))) =
      Except.ok ⟨extract_primary_key idf, nm, fd, cd, md, body⟩ := by
  constructor
  · intro content
    exact splitFuel_len_le (chars "|||") 5 content
  · have hpre : (chars "success:").isPrefixOf (chars "success:" ++
        (nm ++ (chars "|||" ++ (idf ++ (chars "|||" ++ (fd ++
          (chars "|||" ++ (cd ++ (chars "|||" ++ (md ++
            (chars "|||" ++ body))))))))))) :=
      List.isPrefixOf_iff_prefix.mpr (List.prefix_append _ _)
    rw [parse_result_recent, if_neg (by simp [hpre])]
    have hdrop : (chars "success:" ++
        (nm ++ (chars "|||" ++ (idf ++ (chars "|||" ++ (fd ++
          (chars "|||" ++ (cd ++ (chars "|||" ++ (md ++
            (chars "|||" ++ body))))))))))).drop 8 =
        nm ++ (chars "|||" ++ (idf ++ (chars "|||" ++ (fd ++
          (chars "|||" ++ (cd ++ (chars "|||" ++ (md ++
            (chars "|||" ++ body))))))))) := by
      rw [show (8 : Nat) = (chars "success:").length from rfl, List.drop_left]
    rw [hdrop]
    have hsplit : pySplitML (chars "|||") 5
        (nm ++ (chars "|||" ++ (idf ++ (chars "|||" ++ (fd ++
          (chars "|||" ++ (cd ++ (chars "|||" ++ (md ++
            (chars "|||" ++ body)))))))))) =
        [nm, idf, fd, cd, md, body] := by
      have hb : chars "|||" = '|' :: chars "||" := rfl
      simp only [pySplitML]
      rw [hb, show (5 : Nat) = 4 + 1 from rfl,
        splitFuel_step '|' (chars "||") 4 nm _ h1,
        show (4 : Nat) = 3 + 1 from rfl,
        splitFuel_step '|' (chars "||") 3 idf _ h2,
        show (3 : Nat) = 2 + 1 from rfl,
        splitFuel_step '|' (chars "||") 2 fd _ h3,
        show (2 : Nat) = 1 + 1 from rfl,
        splitFuel_step '|' (chars "||") 1 cd _ h4,
        show (1 : Nat) = 0 + 1 from rfl,
        splitFuel_step '|' (chars "||") 0 md _ h5,
        splitFuel_zero]
    simp only [hsplit]
    rfl

/-- Witness for C8: concrete fields whose body contains `|||` twice. -/
theorem c8_recent_split_limit_body_last_witness :
    ('|' ∉ chars "Groceries") ∧
    (parse_result_recent (chars "success:" ++
        (chars "Groceries" ++ (chars "|||" ++ (chars "x-coredata://A/ICNote/p7" ++
          (chars "|||" ++ (chars "Notes" ++ (chars "|||" ++
            (chars "Mon Jan 1" ++ (chars "|||" ++ (chars "Tue Jan 2" ++
              (chars "|||" ++ chars "milk ||| eggs ||| basil"))))))))))) =
      Except.ok ⟨extract_primary_key (chars "x-coredata://A/ICNote/p7"),
        chars "Groceries", chars "Notes", chars "Mon Jan 1",
        chars "Tue Jan 2", chars "milk ||| eggs ||| basil"⟩) :=
  ⟨by decide,
    (c8_recent_split_limit_body_last (chars "Groceries")
      (chars "x-coredata://A/ICNote/p7") (chars "Notes") (chars "Mon Jan 1")
      (chars "Tue Jan 2") (chars "milk ||| eggs ||| basil")
      (by decide) (by decide) (by decide) (by decide) (by decide)).2⟩

theorem strLe_total : ∀ a b : List Char, strLe a b = true ∨ strLe b a = true := by
  intro a
  induction a with
  | nil => intro b; left; rfl
  | cons x xs ih =>
    intro b
    cases b with
    | nil => right; rfl
    | cons y ys =>
      by_cases hxy : x.toNat < y.toNat
      · left; simp [strLe, hxy]
      · by_cases hyx : y.toNat < x.toNat
        · right; simp [strLe, hyx]
        · rcases ih ys with h | h
          · left; simp [strLe, hxy, hyx, h]
          · right; simp [strLe, hxy, hyx, h]

theorem strLe_trans :
    ∀ a b c : List Char, strLe a b = true → strLe b c = true →
      strLe a c = true := by
  intro a
  induction a with
  | nil => intro b c _ _; rfl
  | cons x xs ih =>
    intro b c hab hbc
    cases b with
    | nil => simp [strLe] at hab
    | cons y ys =>
      cases c with
      | nil => simp [strLe] at hbc
      | cons z zs =>
        simp only [strLe] at hab hbc ⊢
        split_ifs at hab hbc ⊢ with h1 h2 h3 h4 h5 h6 <;>
          first
          | rfl
          | (exfalso; omega)
          | (exact ih ys zs hab hbc)

theorem insertDesc_perm {α : Type} (key : α → List Char) (x : α) :
    ∀ l : List α, (insertDesc key x l).Perm (x :: l) := by
  intro l
  induction l with
  | nil => exact List.Perm.refl _
  | cons y ys ih =>
    rw [insertDesc]
    by_cases h : strLe (key y) (key x) = true
    · rw [if_pos h]
    · rw [if_neg h]
      exact (List.Perm.cons y ih).trans (List.Perm.swap x y ys)

theorem sortDesc_perm {α : Type} (key : α → List Char) :
    ∀ l : List α, (sortDesc key l).Perm l := by
  intro l
  induction l with
  | nil => exact List.Perm.refl _
  | cons x xs ih =>
    rw [sortDesc]
    exact (insertDesc_perm key x _).trans (List.Perm.cons x ih)

theorem insertDesc_pairwise {α : Type} (key : α → List Char) (x : α) :
    ∀ l : List α,
      List.Pairwise (fun p q => strLe (key q) (key p) = true) l →
      List.Pairwise (fun p q => strLe (key q) (key p) = true)
        (insertDesc key x l) := by
  intro l
  induction l with
  | nil => intro _; exact List.pairwise_singleton _ x
  | cons y ys ih =>
    intro hp
    rcases List.pairwise_cons.mp hp with ⟨hy, hys⟩
    rw [insertDesc]
    by_cases h : strLe (key y) (key x) = true
    · rw [if_pos h]
      refine List.pairwise_cons.mpr ⟨?_, hp⟩
      intro z hz
      rcases List.mem_cons.mp hz with rfl | hz'
      · exact h
      · exact strLe_trans _ _ _ (hy z hz') h
    · rw [if_neg h]
      refine List.pairwise_cons.mpr ⟨?_, ih hys⟩
      intro z hz
      have hz' := (insertDesc_perm key x ys).mem_iff.mp hz
      rcases List.mem_cons.mp hz' with rfl | hz''
      · rcases strLe_total (key y) (key z) with hyx | hxy
        · exact absurd hyx h
        · exact hxy
      · exact hy z hz''

theorem sortDesc_pairwise {α : Type} (key : α → List Char) :
    ∀ l : List α,
      List.Pairwise (fun p q => strLe (key q) (key p) = true)
        (sortDesc key l) := by
  intro l
  induction l with
  | nil => exact List.Pairwise.nil
  | cons x xs ih =>
    rw [sortDesc]
    exact insertDesc_pairwise key x _ ih

/-- C10: after a successful `find_notes_by_date` run (no `error:` sentinel),
the operation re-sorts the decoded records newest-first — descending, as
strings, in the date field selected by `date_type` (`modification_date` for
`'modified'`, `creation_date` for `'created'`) — replacing the host's
enumeration order with `sort(key=…, reverse=True)` applied after
decoding. -/
theorem c10_results_sorted_newest_first (raw : List Char)
    (h : (chars "error:").isPrefixOf raw = false) :
    (findNotesByDatePost (chars "modified") raw =
        Except.ok (sortDesc (·.modification_date) (parse_results_date raw)) ∧
      (sortDesc (·.modification_date) (parse_results_date raw)).Perm
        (parse_results_date raw) ∧
      List.Pairwise
        (fun p q => strLe q.modification_date p.modification_date = true)
        (sortDesc (·.modification_date) (parse_results_date raw))) ∧
    (findNotesByDatePost (chars "created") raw =
        Except.ok (sortDesc (·.creation_date) (parse_results_date raw)) ∧
      (sortDesc (·.creation_date) (parse_results_date raw)).Perm
        (parse_results_date raw) ∧
      List.Pairwise
        (fun p q => strLe q.creation_date p.creation_date = true)
        (sortDesc (·.creation_date) (parse_results_date raw))) := by
  constructor
  · refine ⟨?_, sortDesc_perm _ _, sortDesc_pairwise _ _⟩
    rw [findNotesByDatePost, if_neg (by simp [h])]
    rfl
  · refine ⟨?_, sortDesc_perm _ _, sortDesc_pairwise _ _⟩
    rw [findNotesByDatePost, if_neg (by simp [h])]
    have : (chars "created" = chars "modified") = False := by
      simp; decide
    simp only [this, if_false]

/-- Witness for C10 at a concrete two-record payload arriving
oldest-first. -/
theorem c10_results_sorted_newest_first_witness :
    (chars "error:").isPrefixOf
      (chars "A|||x/p1|||F|||2024-01-01|||2024-01-05\rB|||x/p2|||F|||2024-02-02|||2024-03-03") = false ∧
    ((findNotesByDatePost (chars "modified")
        (chars "A|||x/p1|||F|||2024-01-01|||2024-01-05\rB|||x/p2|||F|||2024-02-02|||2024-03-03") =
        Except.ok (sortDesc (·.modification_date) (parse_results_date
          (chars "A|||x/p1|||F|||2024-01-01|||2024-01-05\rB|||x/p2|||F|||2024-02-02|||2024-03-03"))) ∧
      (sortDesc (·.modification_date) (parse_results_date
          (chars "A|||x/p1|||F|||2024-01-01|||2024-01-05\rB|||x/p2|||F|||2024-02-02|||2024-03-03"))).Perm
        (parse_results_date
          (chars "A|||x/p1|||F|||2024-01-01|||2024-01-05\rB|||x/p2|||F|||2024-02-02|||2024-03-03")) ∧
      List.Pairwise
        (fun p q => strLe q.modification_date p.modification_date = true)
        (sortDesc (·.modification_date) (parse_results_date
          (chars "A|||x/p1|||F|||2024-01-01|||2024-01-05\rB|||x/p2|||F|||2024-02-02|||2024-03-03")))) ∧
    (findNotesByDatePost (chars "created")
        (chars "A|||x/p1|||F|||2024-01-01|||2024-01-05\rB|||x/p2|||F|||2024-02-02|||2024-03-03") =
        Except.ok (sortDesc (·.creation_date) (parse_results_date
          (chars "A|||x/p1|||F|||2024-01-01|||2024-01-05\rB|||x/p2|||F|||2024-02-02|||2024-03-03"))) ∧
      (sortDesc (·.creation_date) (parse_results_date
          (chars "A|||x/p1|||F|||2024-01-01|||2024-01-05\rB|||x/p2|||F|||2024-02-02|||2024-03-03"))).Perm
        (parse_results_date
          (chars "A|||x/p1|||F|||2024-01-01|||2024-01-05\rB|||x/p2|||F|||2024-02-02|||2024-03-03")) ∧
      List.Pairwise
        (fun p q => strLe q.creation_date p.creation_date = true)
        (sortDesc (·.creation_date) (parse_results_date
          (chars "A|||x/p1|||F|||2024-01-01|||2024-01-05\rB|||x/p2|||F|||2024-02-02|||2024-03-03"))))) :=
  ⟨by decide,
    c10_results_sorted_newest_first
      (chars "A|||x/p1|||F|||2024-01-01|||2024-01-05\rB|||x/p2|||F|||2024-02-02|||2024-03-03")
      (by decide)⟩

theorem containsSub_iff (n : List Char) :
    ∀ s : List Char, containsSub n s = true ↔ n <:+: s := by
  intro s
  induction s with
  | nil =>
    simp only [containsSub, findSub]
    constructor
    · intro h
      have hn : n.isEmpty = true := by
        by_contra hc
        rw [if_neg (by simp [hc])] at h
        simp at h
      rw [List.isEmpty_iff.mp hn]
    · intro h
      have := List.eq_nil_of_infix_nil h
      subst this
      simp
  | cons c cs ih =>
    simp only [containsSub, findSub]
    constructor
    · intro h
      by_cases hp : n.isPrefixOf (c :: cs)
      · exact (List.isPrefixOf_iff_prefix.mp hp).isInfix
      · rw [if_neg hp] at h
        rw [Option.isSome_map'] at h
        exact List.infix_cons (ih.mp h)
    · intro h
      rcases List.infix_cons_iff.mp h with hp | hi
      · rw [if_pos (List.isPrefixOf_iff_prefix.mpr hp)]
        rfl
      · by_cases hp : n.isPrefixOf (c :: cs)
        · rw [if_pos hp]; rfl
        · rw [if_neg hp]
          rw [Option.isSome_map']
          exact ih.mpr hi

theorem prefix_stops_before_sep (sep : Char) :
    ∀ (n a b : List Char), sep ∉ n → n <+: a ++ sep :: b → n <+: a := by
  intro n
  induction n with
  | nil => intro a b _ _; exact List.nil_prefix
  | cons d n' ih =>
    intro a b hmem hpre
    cases a with
    | nil =>
      rw [List.nil_append] at hpre
      rcases List.cons_prefix_cons.mp hpre with ⟨rfl, _⟩
      exact absurd (List.mem_cons_self d n') hmem
    | cons c a' =>
      rw [List.cons_append] at hpre
      rcases List.cons_prefix_cons.mp hpre with ⟨rfl, htail⟩
      have hmem' : sep ∉ n' := fun hx => hmem (List.mem_cons_of_mem d hx)
      exact List.cons_prefix_cons.mpr ⟨rfl, ih a' b hmem' htail⟩

theorem infix_through_sep (sep : Char) :
    ∀ (a n b : List Char), sep ∉ n → n <:+: a ++ sep :: b →
      n <:+: a ∨ n <:+: b := by
  intro a
  induction a with
  | nil =>
    intro n b hmem hinf
    rw [List.nil_append] at hinf
    rcases List.infix_cons_iff.mp hinf with hp | hi
    · cases n with
      | nil => exact Or.inl List.nil_infix
      | cons d n' =>
        rcases List.cons_prefix_cons.mp hp with ⟨rfl, _⟩
        exact absurd (List.mem_cons_self d n') hmem
    · exact Or.inr hi
  | cons c a' ih =>
    intro n b hmem hinf
    rw [List.cons_append] at hinf
    rcases List.infix_cons_iff.mp hinf with hp | hi
    · have : n <+: (c :: a') ++ sep :: b := by
        rw [List.cons_append]
        exact hp
      exact Or.inl ((prefix_stops_before_sep sep n (c :: a') b hmem this).isInfix)
    · rcases ih n b hmem hi with h | h
      · exact Or.inl (List.infix_cons h)
      · exact Or.inr h

theorem infix_intercalate_mem (sep : Char) :
    ∀ (lines : List (List Char)) (n : List Char), sep ∉ n → n ≠ [] →
      n <:+: List.intercalate [sep] lines → ∃ l ∈ lines, n <:+: l := by
  intro lines
  induction lines with
  | nil =>
    intro n _ hne hinf
    rw [intercalate_nil_] at hinf
    exact absurd (List.eq_nil_of_infix_nil hinf) hne
  | cons x rest ih =>
    intro n hmem hne hinf
    cases rest with
    | nil =>
      rw [intercalate_single] at hinf
      exact ⟨x, List.mem_cons_self x [], hinf⟩
    | cons y rest' =>
      rw [intercalate_cons₂, List.append_assoc, List.singleton_append] at hinf
      rcases infix_through_sep sep x n _ hmem hinf with h | h
      · exact ⟨x, List.mem_cons_self x _, h⟩
      · rcases ih n hmem hne h with ⟨l, hl, hinf'⟩
        exact ⟨l, List.mem_cons_of_mem x hl, hinf'⟩

theorem mem_infix_intercalate (sep : Char) :
    ∀ (lines : List (List Char)) (l : List Char), l ∈ lines →
      l <:+: List.intercalate [sep] lines := by
  intro lines
  induction lines with
  | nil => intro l hl; cases hl
  | cons x rest ih =>
    intro l hl
    rcases List.mem_cons.mp hl with rfl | hl'
    · cases rest with
      | nil => rw [intercalate_single]
      | cons y rest' =>
        rw [intercalate_cons₂]
        exact ((List.prefix_append l _).trans
          (by rw [List.append_assoc])).isInfix
    · cases rest with
      | nil => cases hl'
      | cons y rest' =>
        rw [intercalate_cons₂]
        exact (ih l hl').trans (List.suffix_append _ _).isInfix

theorem containsSub_join_false (n : List Char)
    (lines : List (List Char)) (h1 : '\n' ∉ n) (h2 : n ≠ [])
    (h3 : lines.all (fun l => !containsSub n l) = true) :
    containsSub n (List.intercalate (chars "\n") lines) = false := by
  by_contra hc
  have ht : containsSub n (List.intercalate ['\n'] lines) = true := by
    have : chars "\n" = ['\n'] := rfl
    rw [← this]
    exact Bool.of_not_eq_false hc
  rcases infix_intercalate_mem '\n' lines n h1 h2
      ((containsSub_iff n _).mp ht) with ⟨l, hl, hinf⟩
  have := List.all_eq_true.mp h3 l hl
  rw [(containsSub_iff n l).mpr hinf] at this
  simp at this

theorem containsSub_join_true (n l : List Char)
    (lines : List (List Char)) (hl : l ∈ lines)
    (hc : containsSub n l = true) :
    containsSub n (List.intercalate (chars "\n") lines) = true := by
  have : chars "\n" = ['\n'] := rfl
  rw [this]
  exact (containsSub_iff n _).mpr
    (((containsSub_iff n l).mp hc).trans (mem_infix_intercalate '\n' lines l hl))

/-- C2 (the code at the failing inputs): the `get_most_recent_note` script —
whose own docstring says it uses a native `whose` clause — and the
`search_notes(["meeting"])` script contain no `whose` clause at all; each
enumerates every note of the account with a manual `repeat` loop (manual
max-tracking, manual `contains` tests).  By contrast `find_notes_by_title`
does compile its filter into a native `whose` clause. -/
theorem c2_keyword_and_latest_use_manual_loops :
    containsSub (chars "whose") mostRecentScript = false ∧
    containsSub (chars "repeat with currentNote in allNotes")
      mostRecentScript = true ∧
    searchNotesCompile [chars "meeting"] =
      SearchPhase.compiled (searchScript (chars "\"meeting\"")) ∧
    containsSub (chars "whose") (searchScript (chars "\"meeting\"")) = false ∧
    containsSub (chars "repeat with currentNote in every note of primaryAccount")
      (searchScript (chars "\"meeting\"")) = true ∧
    findNotesByTitleCompile (chars "Project Plan") false =
      Except.ok (findTitleScript (chars "whose name contains \"Project Plan\"")) ∧
    containsSub (chars "whose name contains")
      (findTitleScript (chars "whose name contains \"Project Plan\"")) = true := by
  refine ⟨?_, ?_, ?_, ?_, ?_, ?_, ?_⟩
  · exact containsSub_join_false _ mostRecentScriptLines
      (by decide) (by decide) (by decide)
  · exact containsSub_join_true _
      (chars "                repeat with currentNote in allNotes")
      mostRecentScriptLines (by decide) (by decide)
  · rfl
  · exact containsSub_join_false _ (searchScriptLines (chars "\"meeting\""))
      (by decide) (by decide) (by decide)
  · exact containsSub_join_true _
      (chars "                repeat with currentNote in every note of primaryAccount")
      (searchScriptLines (chars "\"meeting\"")) (by decide) (by decide)
  · rfl
  · exact containsSub_join_true _
      (chars "                set matchingNotes to (every note of primaryAccount " ++
        chars "whose name contains \"Project Plan\"" ++ chars ")")
      (findTitleScriptLines (chars "whose name contains \"Project Plan\""))
      (by decide) (by decide)

theorem to_as_seconds_midnight (y m d : Nat) :
    to_as_seconds y m d 0 0 0 =
      86400 * ((toOrdinal y m d : Int) - (toOrdinal 2001 1 1 : Int)) := by
  simp [to_as_seconds]

theorem to_as_seconds_endday (y m d : Nat) :
    to_as_seconds y m d 23 59 59 =
      86400 * ((toOrdinal y m d : Int) - (toOrdinal 2001 1 1 : Int))
        + 86399 := by
  rw [to_as_seconds]
  ring

theorem parse_ne_nil {after : List Char} {v : Nat × Nat × Nat}
    (h : parseIsoDate (pyStrip after) = some v) : after ≠ [] := by
  intro hnil
  subst hnil
  simp [pyStrip, parseIsoDate] at h

theorem dateCompile_both (dtLit propLit : List Char)
    (h1 : ¬ (pyLower (pyStrip dtLit) ≠ chars "created" ∧
      pyLower (pyStrip dtLit) ≠ chars "modified"))
    (h2 : (if pyLower (pyStrip dtLit) = chars "created" then
        chars "creation date" else chars "modification date") = propLit)
    (after before : List Char) (y m d y' m' d' : Nat)
    (hpa : parseIsoDate (pyStrip after) = some (y, m, d))
    (hpb : parseIsoDate (pyStrip before) = some (y', m', d')) :
    findNotesByDateCompile dtLit after before =
      Except.ok ([specLowerClause propLit y m d,
          specUpperClause propLit y' m' d'],
        findDateScript (List.intercalate (chars " and ")
          [specLowerClause propLit y m d,
            specUpperClause propLit y' m' d'])) := by
  have hane : after ≠ [] := parse_ne_nil hpa
  have hbne : before ≠ [] := parse_ne_nil hpb
  rw [findNotesByDateCompile, findNotesByDateCompileWith, if_neg h1,
    if_neg (fun hc => hane hc.1), if_neg hane, hpa, if_neg hbne, hpb]
  simp only [Option.map_some', Option.toList_some, h2, specLowerClause,
    specUpperClause, to_as_seconds_midnight, to_as_seconds_endday,
    List.singleton_append, List.cons_append, List.nil_append]

theorem dateCompile_lower (dtLit propLit : List Char)
    (h1 : ¬ (pyLower (pyStrip dtLit) ≠ chars "created" ∧
      pyLower (pyStrip dtLit) ≠ chars "modified"))
    (h2 : (if pyLower (pyStrip dtLit) = chars "created" then
        chars "creation date" else chars "modification date") = propLit)
    (after : List Char) (y m d : Nat)
    (hpa : parseIsoDate (pyStrip after) = some (y, m, d)) :
    findNotesByDateCompile dtLit after [] =
      Except.ok ([specLowerClause propLit y m d],
        findDateScript (List.intercalate (chars " and ")
          [specLowerClause propLit y m d])) := by
  have hane : after ≠ [] := parse_ne_nil hpa
  rw [findNotesByDateCompile, findNotesByDateCompileWith, if_neg h1,
    if_neg (fun hc => hane hc.1), if_neg hane, hpa, if_pos rfl]
  simp only [Option.map_some', Option.toList_some, Option.map_none',
    Option.toList_none, h2, specLowerClause, to_as_seconds_midnight,
    List.append_nil, List.nil_append]

theorem dateCompile_upper (dtLit propLit : List Char)
    (h1 : ¬ (pyLower (pyStrip dtLit) ≠ chars "created" ∧
      pyLower (pyStrip dtLit) ≠ chars "modified"))
    (h2 : (if pyLower (pyStrip dtLit) = chars "created" then
        chars "creation date" else chars "modification date") = propLit)
    (before : List Char) (y' m' d' : Nat)
    (hpb : parseIsoDate (pyStrip before) = some (y', m', d')) :
    findNotesByDateCompile dtLit [] before =
      Except.ok ([specUpperClause propLit y' m' d'],
        findDateScript (List.intercalate (chars " and ")
          [specUpperClause propLit y' m' d'])) := by
  have hbne : before ≠ [] := parse_ne_nil hpb
  rw [findNotesByDateCompile, findNotesByDateCompileWith, if_neg h1,
    if_neg (fun hc => hbne hc.2), if_pos rfl, if_neg hbne, hpb]
  simp only [Option.map_some', Option.toList_some, Option.map_none',
    Option.toList_none, h2, specUpperClause, to_as_seconds_endday,
    List.append_nil, List.nil_append]

/-- C1: for every find-by-date request with parseable calendar-date bounds,
the compiled `whose` filter compares the selected date property (`creation
date` for `'created'`, `modification date` for `'modified'`) against the
fixed anchor `date "January 1, 2001"` plus a whole-second integer offset —
never a locale-formatted date literal: the lower bound uses `>=` with the
offset of local midnight of the `after` day (`86400 × elapsed days`), the
upper bound uses `<=` with the offset of local `23:59:59` of the `before`
day (`86400 × elapsed days + 86399`), both bounds inclusive of their whole
day. -/
theorem c1_date_bounds_epoch_offset_clauses :
    (∀ (after before : List Char) (y m d y' m' d' : Nat),
      parseIsoDate (pyStrip after) = some (y, m, d) →
      parseIsoDate (pyStrip before) = some (y', m', d') →
      findNotesByDateCompile (chars "created") after before =
        Except.ok ([specLowerClause (chars "creation date") y m d,
            specUpperClause (chars "creation date") y' m' d'],
          findDateScript (List.intercalate (chars " and ")
            [specLowerClause (chars "creation date") y m d,
              specUpperClause (chars "creation date") y' m' d'])) ∧
      findNotesByDateCompile (chars "modified") after before =
        Except.ok ([specLowerClause (chars "modification date") y m d,
            specUpperClause (chars "modification date") y' m' d'],
          findDateScript (List.intercalate (chars " and ")
            [specLowerClause (chars "modification date") y m d,
              specUpperClause (chars "modification date") y' m' d']))) ∧
    (∀ (after : List Char) (y m d : Nat),
      parseIsoDate (pyStrip after) = some (y, m, d) →
      findNotesByDateCompile (chars "created") after [] =
        Except.ok ([specLowerClause (chars "creation date") y m d],
          findDateScript (List.intercalate (chars " and ")
            [specLowerClause (chars "creation date") y m d])) ∧
      findNotesByDateCompile (chars "modified") after [] =
        Except.ok ([specLowerClause (chars "modification date") y m d],
          findDateScript (List.intercalate (chars " and ")
            [specLowerClause (chars "modification date") y m d]))) ∧
    (∀ (before : List Char) (y' m' d' : Nat),
      parseIsoDate (pyStrip before) = some (y', m', d') →
      findNotesByDateCompile (chars "created") [] before =
        Except.ok ([specUpperClause (chars "creation date") y' m' d'],
          findDateScript (List.intercalate (chars " and ")
            [specUpperClause (chars "creation date") y' m' d'])) ∧
      findNotesByDateCompile (chars "modified") [] before =
        Except.ok ([specUpperClause (chars "modification date") y' m' d'],
          findDateScript (List.intercalate (chars " and ")
            [specUpperClause (chars "modification date") y' m' d']))) := by
  refine ⟨?_, ?_, ?_⟩
  · intro after before y m d y' m' d' hpa hpb
    exact ⟨dateCompile_both (chars "created") (chars "creation date")
        (by decide) (by decide) after before y m d y' m' d' hpa hpb,
      dateCompile_both (chars "modified") (chars "modification date")
        (by decide) (by decide) after before y m d y' m' d' hpa hpb⟩
  · intro after y m d hpa
    exact ⟨dateCompile_lower (chars "created") (chars "creation date")
        (by decide) (by decide) after y m d hpa,
      dateCompile_lower (chars "modified") (chars "modification date")
        (by decide) (by decide) after y m d hpa⟩
  · intro before y' m' d' hpb
    exact ⟨dateCompile_upper (chars "created") (chars "creation date")
        (by decide) (by decide) before y' m' d' hpb,
      dateCompile_upper (chars "modified") (chars "modification date")
        (by decide) (by decide) before y' m' d' hpb⟩

/-- Witness for C1 at `after = "2024-01-15"`, `before = "2024-12-31"`. -/
theorem c1_date_bounds_epoch_offset_clauses_witness :
    parseIsoDate (pyStrip (chars "2024-01-15")) = some (2024, 1, 15) ∧
    parseIsoDate (pyStrip (chars "2024-12-31")) = some (2024, 12, 31) ∧
    (findNotesByDateCompile (chars "created") (chars "2024-01-15")
        (chars "2024-12-31") =
      Except.ok ([specLowerClause (chars "creation date") 2024 1 15,
          specUpperClause (chars "creation date") 2024 12 31],
        findDateScript (List.intercalate (chars " and ")
          [specLowerClause (chars "creation date") 2024 1 15,
            specUpperClause (chars "creation date") 2024 12 31])) ∧
    findNotesByDateCompile (chars "modified") (chars "2024-01-15")
        (chars "2024-12-31") =
      Except.ok ([specLowerClause (chars "modification date") 2024 1 15,
          specUpperClause (chars "modification date") 2024 12 31],
        findDateScript (List.intercalate (chars " and ")
          [specLowerClause (chars "modification date") 2024 1 15,
            specUpperClause (chars "modification date") 2024 12 31]))) :=
  ⟨by decide, by decide,
    c1_date_bounds_epoch_offset_clauses.1 (chars "2024-01-15")
      (chars "2024-12-31") 2024 1 15 2024 12 31 (by decide) (by decide)⟩

theorem findSub_none_of_head_not_mem (a : Char) (t : List Char) :
    ∀ s : List Char, a ∉ s → findSub (a :: t) s = none := by
  intro s
  induction s with
  | nil => intro _; rfl
  | cons c cs ih =>
    intro hmem
    have hac : ¬ (a :: t).isPrefixOf (c :: cs) := by
      intro hp
      rcases List.isPrefixOf_iff_prefix.mp hp with ⟨w, hw⟩
      have : a = c := by
        have := congrArg (·.head?) hw
        simpa using this
      exact hmem (this ▸ List.mem_cons_self a cs)
    rw [findSub, if_neg hac, ih (fun hx => hmem (List.mem_cons_of_mem c hx))]
    rfl

theorem replaceL_id_of_findSub_none (old new s : List Char)
    (h : findSub old s = none) : replaceL old new s = s := by
  rw [replaceL]
  by_cases ho : old.isEmpty
  · rw [if_pos ho]
  · rw [if_neg ho]
    have hsplit : pySplit old s = [s] := by
      show pySplitFuel old (s.length + 1) s = [s]
      rw [pySplitFuel_succ, h]
    rw [hsplit, intercalate_single]

theorem split_intercalate (a : Char) (t : List Char) :
    ∀ lines : List (List Char), lines ≠ [] → (∀ l ∈ lines, a ∉ l) →
      pySplit (a :: t) (List.intercalate (a :: t) lines) = lines := by
  intro lines
  induction lines with
  | nil => intro h _; exact absurd rfl h
  | cons l rest ih =>
    intro _ hmem
    cases rest with
    | nil =>
      rw [intercalate_single]
      show pySplitFuel (a :: t) (l.length + 1) l = [l]
      rw [pySplitFuel_succ,
        findSub_none_of_head_not_mem a t l (hmem l (List.mem_cons_self l []))]
    | cons l' rest' =>
      rw [intercalate_cons₂, List.append_assoc]
      show pySplitFuel (a :: t)
        ((l ++ ((a :: t) ++ List.intercalate (a :: t) (l' :: rest'))).length + 1)
        (l ++ ((a :: t) ++ List.intercalate (a :: t) (l' :: rest'))) = _
      rw [show (l ++ ((a :: t) ++ List.intercalate (a :: t) (l' :: rest'))).length + 1 =
        (l ++ ((a :: t) ++ List.intercalate (a :: t) (l' :: rest'))).length + 1 from rfl]
      rw [show ((l ++ ((a :: t) ++ List.intercalate (a :: t) (l' :: rest'))).length + 1) =
        ((l ++ ((a :: t) ++ List.intercalate (a :: t) (l' :: rest'))).length) + 1 from rfl,
        splitFuel_step a t _ l _ (hmem l (List.mem_cons_self l _))]
      rw [pySplitFuel_big (a :: t) (by simp)
        (l ++ ((a :: t) ++ List.intercalate (a :: t) (l' :: rest'))).length
        (List.intercalate (a :: t) (l' :: rest')) (by simp; omega)]
      rw [ih (by simp) (fun x hx => hmem x (List.mem_cons_of_mem l hx))]

theorem not_mem_intercalate (a b : Char) (hab : a ≠ b) :
    ∀ lines : List (List Char), (∀ l ∈ lines, a ∉ l) →
      a ∉ List.intercalate [b] lines := by
  intro lines
  induction lines with
  | nil => intro _; rw [intercalate_nil_]; simp
  | cons l rest ih =>
    intro hmem
    cases rest with
    | nil =>
      rw [intercalate_single]
      exact hmem l (List.mem_cons_self l [])
    | cons l' rest' =>
      rw [intercalate_cons₂]
      intro hx
      rcases List.mem_append.mp hx with hx1 | hx2
      · rcases List.mem_append.mp hx1 with hx3 | hx4
        · exact hmem l (List.mem_cons_self l _) hx3
        · rw [List.mem_singleton] at hx4
          exact hab hx4
      · exact ih (fun x hx => hmem x (List.mem_cons_of_mem l hx)) hx2

theorem crlf_findSub_cr_join_none :
    ∀ lines : List (List Char),
      (∀ l ∈ lines, l ≠ [] ∧ '\r' ∉ l ∧ '\n' ∉ l) →
      findSub (chars "\r\n") (List.intercalate (chars "\r") lines) = none := by
  intro lines
  induction lines with
  | nil => intro _; rw [intercalate_nil_]; rfl
  | cons l rest ih =>
    intro hgood
    have hl := hgood l (List.mem_cons_self l _)
    cases rest with
    | nil =>
      rw [intercalate_single]
      exact findSub_none_of_head_not_mem '\r' (chars "\n") l hl.2.1
    | cons l' rest' =>
      have hrest : ∀ x ∈ l' :: rest', x ≠ [] ∧ '\r' ∉ x ∧ '\n' ∉ x :=
        fun x hx => hgood x (List.mem_cons_of_mem l hx)
      have hshape : List.intercalate (chars "\r") (l :: l' :: rest') =
          l ++ ('\r' :: List.intercalate (chars "\r") (l' :: rest')) := by
        rw [intercalate_cons₂, List.append_assoc]
        rfl
      rw [hshape, show chars "\r\n" = '\r' :: chars "\n" from rfl,
        findSub_shift '\r' (chars "\n") l _ hl.2.1]
      have hl' := hrest l' (List.mem_cons_self l' _)
      have hhead : ¬ ('\r' :: chars "\n").isPrefixOf
          ('\r' :: List.intercalate (chars "\r") (l' :: rest')) := by
        intro hp
        rcases List.isPrefixOf_iff_prefix.mp hp with ⟨w, hw⟩
        have hlf : ('\n' :: (chars "" ++ w)) =
            List.intercalate (chars "\r") (l' :: rest') := by
          have := congrArg List.tail hw
          simpa using this
        have hmemlf : '\n' ∈ List.intercalate (chars "\r") (l' :: rest') := by
          rw [← hlf]
          exact List.mem_cons_self '\n' _
        have : chars "\r" = ['\r'] := rfl
        rw [this] at hmemlf
        exact not_mem_intercalate '\n' '\r' (by decide) (l' :: rest')
          (fun x hx => (hrest x hx).2.2) hmemlf
      rw [show findSub ('\r' :: chars "\n")
          ('\r' :: List.intercalate (chars "\r") (l' :: rest')) =
          (findSub ('\r' :: chars "\n")
            (List.intercalate (chars "\r") (l' :: rest'))).map (· + 1) from by
        rw [findSub, if_neg hhead],
        show ('\r' :: chars "\n") = chars "\r\n" from rfl, ih hrest]
      rfl

theorem pyStrip_lf_cons (l : List Char) : pyStrip ('\n' :: l) = pyStrip l := by
  have h : ('\n' :: l).dropWhile isWS = l.dropWhile isWS := by
    rw [List.dropWhile_cons, if_pos (by decide)]
  simp only [pyStrip, h]

theorem cr_split_crlf_join :
    ∀ (rest : List (List Char)) (l : List Char),
      (∀ x ∈ l :: rest, '\r' ∉ x) →
      pySplit (chars "\r") (List.intercalate (chars "\r\n") (l :: rest)) =
        l :: rest.map ('\n' :: ·) := by
  intro rest
  induction rest with
  | nil =>
    intro l hmem
    rw [intercalate_single]
    show pySplitFuel (chars "\r") (l.length + 1) l = [l]
    rw [pySplitFuel_succ, show chars "\r" = '\r' :: chars "" from rfl,
      findSub_none_of_head_not_mem '\r' (chars "") l
      (hmem l (List.mem_cons_self l _))]
  | cons l' rest' ih =>
    intro l hmem
    have hshape : List.intercalate (chars "\r\n") (l :: l' :: rest') =
        l ++ (('\r' :: chars "\n") ++
          List.intercalate (chars "\r\n") (l' :: rest')) := by
      rw [intercalate_cons₂, List.append_assoc]
      rfl
    have hstep : pySplit (chars "\r")
        (List.intercalate (chars "\r\n") (l :: l' :: rest')) =
        l :: pySplit (chars "\r")
          ('\n' :: List.intercalate (chars "\r\n") (l' :: rest')) := by
      rw [hshape]
      have hre : ('\r' :: chars "\n") ++
          List.intercalate (chars "\r\n") (l' :: rest') =
          (chars "\r") ++
            ('\n' :: List.intercalate (chars "\r\n") (l' :: rest')) := rfl
      rw [hre, ← List.append_assoc]
      show pySplitFuel (chars "\r") _ ((l ++ chars "\r") ++
        ('\n' :: List.intercalate (chars "\r\n") (l' :: rest'))) = _
      rw [List.append_assoc]
      have hlen : ((l ++ (chars "\r" ++
          ('\n' :: List.intercalate (chars "\r\n") (l' :: rest'))))).length + 1 =
          ((l ++ (chars "\r" ++
            ('\n' :: List.intercalate (chars "\r\n") (l' :: rest'))))).length + 1 :=
        rfl
      show pySplitFuel ('\r' :: chars "") _ (l ++ (('\r' :: chars "") ++
        ('\n' :: List.intercalate (chars "\r\n") (l' :: rest')))) = _
      rw [splitFuel_step '\r' (chars "") _ l _
        (hmem l (List.mem_cons_self l _))]
      rw [pySplitFuel_big ('\r' :: chars "") (by simp) _
        ('\n' :: List.intercalate (chars "\r\n") (l' :: rest'))
        (by simp; omega)]
      rfl
    rw [hstep]
    have hcons : pySplit (chars "\r")
        ('\n' :: List.intercalate (chars "\r\n") (l' :: rest')) =
        (pySplit (chars "\r")
          (List.intercalate (chars "\r\n") (l' :: rest'))).modifyHead
            ('\n' :: ·) := by
      have := pySplit_cons_single '\r' '\n'
        (List.intercalate (chars "\r\n") (l' :: rest'))
      rw [if_neg (by decide)] at this
      exact this
    rw [hcons, ih l' (fun x hx => hmem x (List.mem_cons_of_mem l hx))]
    rfl

theorem getLast?_mem_of_eq {α : Type} (l : List α) (a : α)
    (h : l.getLast? = some a) : a ∈ l := by
  rcases List.mem_getLast?_eq_getLast (show a ∈ l.getLast? from h) with
    ⟨hne, ha⟩
  rw [ha]
  exact List.getLast_mem hne

theorem dropWhile_eq_self_of_head (s : List Char)
    (h : ∀ c, s.head? = some c → isWS c = false) :
    s.dropWhile isWS = s := by
  cases s with
  | nil => rfl
  | cons c t =>
    rw [List.dropWhile_cons, if_neg]
    rw [h c rfl]
    simp

theorem pyStrip_eq_self (s : List Char)
    (hh : ∀ c, s.head? = some c → isWS c = false)
    (hl : ∀ c, s.getLast? = some c → isWS c = false) : pyStrip s = s := by
  have h1 : s.dropWhile isWS = s := dropWhile_eq_self_of_head s hh
  have h2 : s.reverse.dropWhile isWS = s.reverse := by
    apply dropWhile_eq_self_of_head
    intro c hc
    rw [List.head?_reverse] at hc
    exact hl c hc
  rw [pyStrip, h1, h2, List.reverse_reverse]

theorem intercalate_head_eq (sep : List Char) (l : List Char)
    (rest : List (List Char)) :
    ∀ c, l.head? = some c →
      (List.intercalate sep (l :: rest)).head? = some c := by
  intro c hc
  cases rest with
  | nil => rw [intercalate_single]; exact hc
  | cons l' r' =>
    rw [intercalate_cons₂]
    cases l with
    | nil => cases hc
    | cons x t =>
      simp only [List.head?_cons, Option.some.injEq] at hc
      subst hc
      rfl

theorem intercalate_join_ne_nil (sep : List Char) (l : List Char)
    (rest : List (List Char)) (hne : l ≠ []) :
    List.intercalate sep (l :: rest) ≠ [] := by
  cases l with
  | nil => exact absurd rfl hne
  | cons c t =>
    have := intercalate_head_eq sep (c :: t) rest c rfl
    intro hnil
    rw [hnil] at this
    cases this

theorem intercalate_getLast_eq (sep : List Char) :
    ∀ (lines : List (List Char)) (lastLine : List Char),
      lines.getLast? = some lastLine → (∀ x ∈ lines, x ≠ []) →
      (List.intercalate sep lines).getLast? = lastLine.getLast? := by
  intro lines
  induction lines with
  | nil => intro lastLine h _; cases h
  | cons l rest ih =>
    intro lastLine hlast hx
    cases rest with
    | nil =>
      simp only [List.getLast?_singleton, Option.some.injEq] at hlast
      subst hlast
      rw [intercalate_single]
    | cons l' rest' =>
      rw [List.getLast?_cons_cons] at hlast
      rw [intercalate_cons₂, List.getLast?_append,
        ih lastLine hlast (fun x hxx => hx x (List.mem_cons_of_mem l hxx))]
      have hlne : lastLine ≠ [] := by
        apply hx
        exact List.mem_cons_of_mem l (getLast?_mem_of_eq _ _ hlast)
      cases hll : lastLine.getLast? with
      | none =>
        rcases lastLine with _ | ⟨x, xs⟩
        · exact absurd rfl hlne
        · rw [List.getLast?_eq_getLast _ (by simp)] at hll
          cases hll
      | some c => rfl

theorem strip_id_join (sep : List Char) (lines : List (List Char))
    (hne : lines ≠ [])
    (hgood : ∀ l ∈ lines, l ≠ [] ∧ pyStrip l = l) :
    pyStrip (List.intercalate sep lines) = List.intercalate sep lines := by
  rcases lines with _ | ⟨l, rest⟩
  · exact absurd rfl hne
  apply pyStrip_eq_self
  · intro c hc
    have hl := hgood l (List.mem_cons_self l _)
    cases hl0 : l.head? with
    | none =>
      rcases l with _ | ⟨x, xs⟩
      · exact absurd rfl hl.1
      · cases hl0
    | some c0 =>
      rw [intercalate_head_eq sep l rest c0 hl0] at hc
      cases hc
      apply pyStrip_head_not_ws l
      rw [hl.2]
      exact hl0
  · intro c hc
    have hlastSome : ∃ lastLine, (l :: rest).getLast? = some lastLine := by
      rcases hgl : (l :: rest).getLast? with _ | ll
      · rcases rest with _ | ⟨y, ys⟩
        · cases hgl
        · rw [List.getLast?_cons_cons] at hgl
          rcases List.getLast?_eq_none_iff.mp hgl with h
          cases h
      · exact ⟨ll, rfl⟩
    rcases hlastSome with ⟨lastLine, hlast⟩
    have hmem := getLast?_mem_of_eq _ _ hlast
    have hll := hgood lastLine hmem
    rw [intercalate_getLast_eq sep (l :: rest) lastLine hlast
      (fun x hx => (hgood x hx).1)] at hc
    apply pyStrip_getLast_not_ws lastLine
    rw [hll.2]
    exact hc

theorem norm_lf_join (lines : List (List Char))
    (hgood : ∀ l ∈ lines, '\r' ∉ l) :
    replaceL (chars "\r") (chars "\n")
      (replaceL (chars "\r\n") (chars "\n")
        (List.intercalate (chars "\n") lines)) =
      List.intercalate (chars "\n") lines := by
  have hcv : chars "\n" = ['\n'] := rfl
  have hcr : '\r' ∉ List.intercalate (chars "\n") lines := by
    rw [hcv]
    exact not_mem_intercalate '\r' '\n' (by decide) lines hgood
  have hstep1 : replaceL (chars "\r\n") (chars "\n")
      (List.intercalate (chars "\n") lines) =
      List.intercalate (chars "\n") lines :=
    replaceL_id_of_findSub_none _ _ _ (by
      rw [show chars "\r\n" = '\r' :: chars "\n" from rfl]
      exact findSub_none_of_head_not_mem '\r' (chars "\n") _ hcr)
  rw [hstep1]
  exact replaceL_id_of_findSub_none _ _ _ (by
    rw [show chars "\r" = '\r' :: chars "" from rfl]
    exact findSub_none_of_head_not_mem '\r' (chars "") _ hcr)

theorem norm_cr_join (lines : List (List Char)) (hne : lines ≠ [])
    (hgood : ∀ l ∈ lines, l ≠ [] ∧ '\r' ∉ l ∧ '\n' ∉ l) :
    replaceL (chars "\r") (chars "\n")
      (replaceL (chars "\r\n") (chars "\n")
        (List.intercalate (chars "\r") lines)) =
      List.intercalate (chars "\n") lines := by
  have hstep1 : replaceL (chars "\r\n") (chars "\n")
      (List.intercalate (chars "\r") lines) =
      List.intercalate (chars "\r") lines :=
    replaceL_id_of_findSub_none _ _ _ (crlf_findSub_cr_join_none lines hgood)
  rw [hstep1, replaceL, if_neg (by decide)]
  rw [show chars "\r" = '\r' :: chars "" from rfl,
    split_intercalate '\r' (chars "") lines hne (fun l hl => (hgood l hl).2.1)]

theorem norm_crlf_join (lines : List (List Char)) (hne : lines ≠ [])
    (hgood : ∀ l ∈ lines, '\r' ∉ l) :
    replaceL (chars "\r") (chars "\n")
      (replaceL (chars "\r\n") (chars "\n")
        (List.intercalate (chars "\r\n") lines)) =
      List.intercalate (chars "\n") lines := by
  have hstep1 : replaceL (chars "\r\n") (chars "\n")
      (List.intercalate (chars "\r\n") lines) =
      List.intercalate (chars "\n") lines := by
    rw [replaceL, if_neg (by decide)]
    rw [show chars "\r\n" = '\r' :: chars "\n" from rfl,
      split_intercalate '\r' (chars "\n") lines hne hgood]
  rw [hstep1]
  have hcv : chars "\n" = ['\n'] := rfl
  have hcr : '\r' ∉ List.intercalate (chars "\n") lines := by
    rw [hcv]
    exact not_mem_intercalate '\r' '\n' (by decide) lines hgood
  exact replaceL_id_of_findSub_none _ _ _ (by
    rw [show chars "\r" = '\r' :: chars "" from rfl]
    exact findSub_none_of_head_not_mem '\r' (chars "") _ hcr)

theorem parse_date_eq_of_norm (s1 s2 : List Char)
    (h1 : pyStrip s1 = s1) (h2 : pyStrip s2 = s2)
    (hn1 : s1 ≠ []) (hn2 : s2 ≠ [])
    (heq : replaceL (chars "\r") (chars "\n")
        (replaceL (chars "\r\n") (chars "\n") s1) =
      replaceL (chars "\r") (chars "\n")
        (replaceL (chars "\r\n") (chars "\n") s2)) :
    parse_results_date s1 = parse_results_date s2 := by
  rw [parse_results_date, parse_results_date,
    if_neg (by rw [h1]; simp [hn1]), if_neg (by rw [h2]; simp [hn2]),
    h1, h2, heq]

theorem crParse_eq {α : Type} (G : List Char → Option α)
    (lines : List (List Char)) (hne : lines ≠ [])
    (hgood : ∀ l ∈ lines, l ≠ [] ∧ '\r' ∉ l ∧ '\n' ∉ l ∧ pyStrip l = l) :
    (pySplit (chars "\r")
        (pyStrip (List.intercalate (chars "\r\n") lines))).filterMap
      (fun l0 => G (pyStrip l0)) =
    (pySplit (chars "\r")
        (pyStrip (List.intercalate (chars "\r") lines))).filterMap
      (fun l0 => G (pyStrip l0)) := by
  rcases lines with _ | ⟨l, rest⟩
  · exact absurd rfl hne
  have hgood' : ∀ x ∈ l :: rest, x ≠ [] ∧ pyStrip x = x :=
    fun x hx => ⟨(hgood x hx).1, (hgood x hx).2.2.2⟩
  rw [strip_id_join (chars "\r\n") (l :: rest) (by simp) hgood',
    strip_id_join (chars "\r") (l :: rest) (by simp) hgood']
  rw [cr_split_crlf_join rest l (fun x hx => (hgood x hx).2.1)]
  rw [show chars "\r" = '\r' :: chars "" from rfl,
    split_intercalate '\r' (chars "") (l :: rest) (by simp)
      (fun x hx => (hgood x hx).2.1)]
  simp only [List.filterMap_cons]
  have hfun : ((fun l0 => G (pyStrip l0)) ∘ ('\n' :: ·) :
      List Char → Option α) = fun l0 => G (pyStrip l0) := by
    funext x
    simp [Function.comp, pyStrip_lf_cons]
  rw [List.filterMap_map, hfun]

/-- C4 counterexample: the same two records joined with lone line-feed
versus lone carriage-return decode differently in the find-by-title decoder
(lone `\n` is not treated as a record separator there), while the
find-by-date decoder treats the two identically. -/
theorem c4_lf_not_tolerated_counterexample :
    parse_results_title
        (chars "A|||x/p1|||F|||c|||m\nB|||x/p2|||F|||c2|||m2") ≠
      parse_results_title
        (chars "A|||x/p1|||F|||c|||m\rB|||x/p2|||F|||c2|||m2") ∧
    parse_results_date
        (chars "A|||x/p1|||F|||c|||m\nB|||x/p2|||F|||c2|||m2") =
      parse_results_date
        (chars "A|||x/p1|||F|||c|||m\rB|||x/p2|||F|||c2|||m2") := by
  constructor
  · decide
  · decide

/-- C4 (amended): only the find-by-date decoder normalizes and therefore
tolerates all three line-ending conventions (`\r\n`, `\r`, `\n`), decoding
the same record lines identically under each; the title, keyword-search and
list decoders split on lone carriage-return only — they also tolerate the
`\r\n` pair (each line is stripped of surrounding whitespace, which removes
the leftover `\n`), but do not treat a lone line-feed as a record
separator. -/
theorem c4_line_ending_tolerance (lines : List (List Char))
    (hne : lines ≠ [])
    (hgood : ∀ l ∈ lines, l ≠ [] ∧ '\r' ∉ l ∧ '\n' ∉ l ∧ pyStrip l = l) :
    parse_results_date (List.intercalate (chars "\r\n") lines) =
      parse_results_date (List.intercalate (chars "\n") lines) ∧
    parse_results_date (List.intercalate (chars "\r") lines) =
      parse_results_date (List.intercalate (chars "\n") lines) ∧
    parse_results_title (List.intercalate (chars "\r\n") lines) =
      parse_results_title (List.intercalate (chars "\r") lines) ∧
    parse_search_results (List.intercalate (chars "\r\n") lines) =
      parse_search_results (List.intercalate (chars "\r") lines) ∧
    parse_notes_list (List.intercalate (chars "\r\n") lines) =
      parse_notes_list (List.intercalate (chars "\r") lines) := by
  rcases hlines : lines with _ | ⟨l, rest⟩
  · exact absurd hlines hne
  subst hlines
  have hgood' : ∀ x ∈ l :: rest, x ≠ [] ∧ pyStrip x = x :=
    fun x hx => ⟨(hgood x hx).1, (hgood x hx).2.2.2⟩
  have hl := hgood l (List.mem_cons_self l _)
  have hstrip : ∀ sep, pyStrip (List.intercalate sep (l :: rest)) =
      List.intercalate sep (l :: rest) :=
    fun sep => strip_id_join sep (l :: rest) (by simp) hgood'
  have hnn : ∀ sep, List.intercalate sep (l :: rest) ≠ [] :=
    fun sep => intercalate_join_ne_nil sep l rest hl.1
  refine ⟨?_, ?_, ?_, ?_, ?_⟩
  · exact parse_date_eq_of_norm _ _ (hstrip _) (hstrip _) (hnn _) (hnn _)
      (by rw [norm_crlf_join (l :: rest) (by simp)
          (fun x hx => (hgood x hx).2.1),
        norm_lf_join (l :: rest) (fun x hx => (hgood x hx).2.1)])
  · exact parse_date_eq_of_norm _ _ (hstrip _) (hstrip _) (hnn _) (hnn _)
      (by rw [norm_cr_join (l :: rest) (by simp)
          (fun x hx => ⟨(hgood x hx).1, (hgood x hx).2.1, (hgood x hx).2.2.1⟩),
        norm_lf_join (l :: rest) (fun x hx => (hgood x hx).2.1)])
  · rw [parse_results_title, parse_results_title,
      if_neg (by rw [hstrip _]; simp [hnn _]),
      if_neg (by rw [hstrip _]; simp [hnn _])]
    exact crParse_eq ((fun line => if line = [] then none
      else
        let parts := pySplit (chars "|||") line
        if parts.length < 5 then none
        else
          some ⟨extract_primary_key (parts.getD 1 []), parts.getD 0 [],
            parts.getD 2 [], parts.getD 3 [], parts.getD 4 []⟩) :
        List Char → Option NoteRecord)
      (l :: rest) (by simp) hgood
  · rw [parse_search_results, parse_search_results,
      if_neg (by rw [hstrip _]; simp [hnn _]),
      if_neg (by rw [hstrip _]; simp [hnn _])]
    exact crParse_eq ((fun line => if line = [] then none
      else
        let parts := pySplit (chars "|||") line
        if parts.length < 4 then none
        else
          let short_id := extract_primary_key (parts.getD 1 [])
          if short_id ≠ [] ∧ parts.getD 0 [] ≠ [] then
            some ⟨short_id, parts.getD 0 [], parts.getD 2 [], parts.getD 3 []⟩
          else none) : List Char → Option SearchRecord)
      (l :: rest) (by simp) hgood
  · rw [parse_notes_list, parse_notes_list,
      if_neg (by rw [hstrip _]; simp [hnn _]),
      if_neg (by rw [hstrip _]; simp [hnn _])]
    exact crParse_eq ((fun line => if line = [] then none
      else
        let parts := pySplit (chars "|||") line
        if parts.length < 5 then none
        else
          some ⟨extract_primary_key (parts.getD 1 []), parts.getD 0 [],
            parts.getD 2 [], parts.getD 3 [], parts.getD 4 []⟩) :
        List Char → Option NoteRecord)
      (l :: rest) (by simp) hgood

/-- Witness for C4 at two concrete record lines. -/
theorem c4_line_ending_tolerance_witness :
    ([chars "A|||x/p1|||F|||c|||m", chars "B|||x/p2|||F|||c2|||m2"] ≠
      ([] : List (List Char))) ∧
    (parse_results_date (List.intercalate (chars "\r\n")
        [chars "A|||x/p1|||F|||c|||m", chars "B|||x/p2|||F|||c2|||m2"]) =
      parse_results_date (List.intercalate (chars "\n")
        [chars "A|||x/p1|||F|||c|||m", chars "B|||x/p2|||F|||c2|||m2"]) ∧
    parse_results_date (List.intercalate (chars "\r")
        [chars "A|||x/p1|||F|||c|||m", chars "B|||x/p2|||F|||c2|||m2"]) =
      parse_results_date (List.intercalate (chars "\n")
        [chars "A|||x/p1|||F|||c|||m", chars "B|||x/p2|||F|||c2|||m2"]) ∧
    parse_results_title (List.intercalate (chars "\r\n")
        [chars "A|||x/p1|||F|||c|||m", chars "B|||x/p2|||F|||c2|||m2"]) =
      parse_results_title (List.intercalate (chars "\r")
        [chars "A|||x/p1|||F|||c|||m", chars "B|||x/p2|||F|||c2|||m2"]) ∧
    parse_search_results (List.intercalate (chars "\r\n")
        [chars "A|||x/p1|||F|||c|||m", chars "B|||x/p2|||F|||c2|||m2"]) =
      parse_search_results (List.intercalate (chars "\r")
        [chars "A|||x/p1|||F|||c|||m", chars "B|||x/p2|||F|||c2|||m2"]) ∧
    parse_notes_list (List.intercalate (chars "\r\n")
        [chars "A|||x/p1|||F|||c|||m", chars "B|||x/p2|||F|||c2|||m2"]) =
      parse_notes_list (List.intercalate (chars "\r")
        [chars "A|||x/p1|||F|||c|||m", chars "B|||x/p2|||F|||c2|||m2"])) :=
  ⟨by decide,
    c4_line_ending_tolerance
      [chars "A|||x/p1|||F|||c|||m", chars "B|||x/p2|||F|||c2|||m2"]
      (by decide) (by decide)⟩

theorem notes_line_characterization :
    ∀ lines : List (List Char),
      (lines.filterMap (fun line0 =>
        let line := pyStrip line0
        if line = [] then none
        else
          let parts := pySplit (chars "|||") line
          if parts.length < 5 then none
          else
            some (⟨extract_primary_key (parts.getD 1 []), parts.getD 0 [],
              parts.getD 2 [], parts.getD 3 [],
              parts.getD 4 []⟩ : NoteRecord))) =
      ((((lines.map pyStrip).filter (fun l => !l.isEmpty)).filter
          (fun l => decide (5 ≤ (pySplit (chars "|||") l).length))).map
        (fun l => (⟨extract_primary_key ((pySplit (chars "|||") l).getD 1 []),
          (pySplit (chars "|||") l).getD 0 [],
          (pySplit (chars "|||") l).getD 2 [],
          (pySplit (chars "|||") l).getD 3 [],
          (pySplit (chars "|||") l).getD 4 []⟩ : NoteRecord))) := by
  intro lines
  induction lines with
  | nil => rfl
  | cons x rest ih =>
    simp only [List.filterMap_cons, List.map_cons, List.filter_cons]
    by_cases h0 : pyStrip x = []
    · rw [if_pos h0, ih, h0]
      simp
    · rw [if_neg h0]
      have hne : (!(pyStrip x).isEmpty) = true := by
        simp [List.isEmpty_iff, h0]
      rw [hne, if_pos rfl, List.filter_cons]
      by_cases hlen : (pySplit (chars "|||") (pyStrip x)).length < 5
      · rw [if_pos hlen, ih]
        have : decide (5 ≤ (pySplit (chars "|||") (pyStrip x)).length) =
            false := by
          rw [decide_eq_false_iff_not]
          omega
        rw [this]
        simp
      · rw [if_neg hlen, ih]
        have : decide (5 ≤ (pySplit (chars "|||") (pyStrip x)).length) =
            true := by
          rw [decide_eq_true_iff]
          omega
        rw [this]
        simp

theorem search_line_characterization :
    ∀ lines : List (List Char),
      (lines.filterMap (fun line0 =>
        let line := pyStrip line0
        if line = [] then none
        else
          let parts := pySplit (chars "|||") line
          if parts.length < 4 then none
          else
            let short_id := extract_primary_key (parts.getD 1 [])
            if short_id ≠ [] ∧ parts.getD 0 [] ≠ [] then
              some (⟨short_id, parts.getD 0 [], parts.getD 2 [],
                parts.getD 3 []⟩ : SearchRecord)
            else none)) =
      ((((lines.map pyStrip).filter (fun l => !l.isEmpty)).filter
          (fun l => decide (4 ≤ (pySplit (chars "|||") l).length ∧
            extract_primary_key ((pySplit (chars "|||") l).getD 1 []) ≠ [] ∧
            (pySplit (chars "|||") l).getD 0 [] ≠ []))).map
        (fun l => (⟨extract_primary_key ((pySplit (chars "|||") l).getD 1 []),
          (pySplit (chars "|||") l).getD 0 [],
          (pySplit (chars "|||") l).getD 2 [],
          (pySplit (chars "|||") l).getD 3 []⟩ : SearchRecord))) := by
  intro lines
  induction lines with
  | nil => rfl
  | cons x rest ih =>
    simp only [List.filterMap_cons, List.map_cons, List.filter_cons]
    by_cases h0 : pyStrip x = []
    · rw [if_pos h0, ih, h0]
      simp
    · rw [if_neg h0]
      have hne : (!(pyStrip x).isEmpty) = true := by
        simp [List.isEmpty_iff, h0]
      rw [hne, if_pos rfl, List.filter_cons]
      by_cases hlen : (pySplit (chars "|||") (pyStrip x)).length < 4
      · rw [if_pos hlen, ih]
        have : decide (4 ≤ (pySplit (chars "|||") (pyStrip x)).length ∧
            extract_primary_key
              ((pySplit (chars "|||") (pyStrip x)).getD 1 []) ≠ [] ∧
            (pySplit (chars "|||") (pyStrip x)).getD 0 [] ≠ []) = false := by
          rw [decide_eq_false_iff_not]
          intro hc
          omega
        rw [this]
        simp
      · rw [if_neg hlen]
        by_cases hq : extract_primary_key
            ((pySplit (chars "|||") (pyStrip x)).getD 1 []) ≠ [] ∧
            (pySplit (chars "|||") (pyStrip x)).getD 0 [] ≠ []
        · rw [if_pos hq, ih]
          have : decide (4 ≤ (pySplit (chars "|||") (pyStrip x)).length ∧
              extract_primary_key
                ((pySplit (chars "|||") (pyStrip x)).getD 1 []) ≠ [] ∧
              (pySplit (chars "|||") (pyStrip x)).getD 0 [] ≠ []) = true := by
            rw [decide_eq_true_iff]
            exact ⟨by omega, hq.1, hq.2⟩
          rw [this]
          simp
        · rw [if_neg hq, ih]
          have : decide (4 ≤ (pySplit (chars "|||") (pyStrip x)).length ∧
              extract_primary_key
                ((pySplit (chars "|||") (pyStrip x)).getD 1 []) ≠ [] ∧
              (pySplit (chars "|||") (pyStrip x)).getD 0 [] ≠ []) = false := by
            rw [decide_eq_false_iff_not]
            intro hc
            exact hq ⟨hc.2.1, hc.2.2⟩
          rw [this]
          simp

/-- C7 counterexample: a line with exactly the expected four fields but an
empty name yields no record in the keyword-search decoder — an additional
silent discard beyond the drop-short-lines case the claim permits. -/
theorem c7_search_extra_drop_counterexample :
    (pySplit (chars "|||") (chars "|||x/p1|||F|||kw")).length = 4 ∧
    parse_search_results (chars "|||x/p1|||F|||kw") = [] := by
  constructor
  · decide
  · decide

/-- C7 (amended): the list decoder drops exactly the lines that strip to
empty or split into fewer than five fields, and maps every remaining line
to one record in input order; the keyword-search decoder additionally drops
well-formed four-field lines whose derived short id or name is empty —
decoding is exactly a filter of the split lines followed by a positional
field mapping. -/
theorem c7_decoders_drop_only_malformed (raw : List Char) :
    parse_notes_list raw =
      (((((pySplit (chars "\r") (pyStrip raw)).map pyStrip).filter
          (fun l => !l.isEmpty)).filter
        (fun l => decide (5 ≤ (pySplit (chars "|||") l).length))).map
        (fun l => (⟨extract_primary_key ((pySplit (chars "|||") l).getD 1 []),
          (pySplit (chars "|||") l).getD 0 [],
          (pySplit (chars "|||") l).getD 2 [],
          (pySplit (chars "|||") l).getD 3 [],
          (pySplit (chars "|||") l).getD 4 []⟩ : NoteRecord))) ∧
    parse_search_results raw =
      (((((pySplit (chars "\r") (pyStrip raw)).map pyStrip).filter
          (fun l => !l.isEmpty)).filter
        (fun l => decide (4 ≤ (pySplit (chars "|||") l).length ∧
          extract_primary_key ((pySplit (chars "|||") l).getD 1 []) ≠ [] ∧
          (pySplit (chars "|||") l).getD 0 [] ≠ []))).map
        (fun l => (⟨extract_primary_key ((pySplit (chars "|||") l).getD 1 []),
          (pySplit (chars "|||") l).getD 0 [],
          (pySplit (chars "|||") l).getD 2 [],
          (pySplit (chars "|||") l).getD 3 []⟩ : SearchRecord))) := by
  constructor
  · by_cases h0 : pyStrip raw = []
    · rw [parse_notes_list, if_pos h0, h0]
      rfl
    · rw [parse_notes_list, if_neg h0]
      exact notes_line_characterization _
  · by_cases h0 : pyStrip raw = []
    · rw [parse_search_results, if_pos (Or.inr h0), h0]
      rfl
    · rw [parse_search_results, if_neg (by
        rintro (h | h)
        · rw [h] at h0
          exact h0 rfl
        · exact h0 h)]
      exact search_line_characterization _
